import Mathlib

/-!
Verification of the neural_sp beam-search decoding core.

This file gives a shallow embedding, over exact rational scores, of the
decoding code of the repository:

* `TransformerDecoder.beam_search` and `TransformerDecoder.greedy`
  (src/neural_sp/models/seq2seq/decoders/transformer.py),
* the hard-attention branch of `MoChA.forward` together with
  `exclusive_cumprod` (src/neural_sp/models/modules/mocha.py),
* `HierarchicalCTC.forward` (src/models/pytorch/ctc/hierarchical_ctc.py),

and proves or refutes the specification claims about them.

Conventions of the embedding:

* Floating-point log-probabilities are modelled by `ℚ`.  Neural networks
  (the transformer stack, the LM, the CTC emission machinery) are opaque
  scoring functions, exactly as the spec's §1 scopes them out: the decoder
  is a function from a token prefix to a vector of (log-softmax) scores;
  the LM is a function from its recurrent state and the last token to a
  new state and a score vector; the CTC prefix scorer is a function from
  a prefix, the candidate set and its incremental state to scores and
  new states.
* `torch.topk(..., largest=True, sorted=True)`, `torch.argmax` and Python's
  stable `sorted(..., reverse=True)` are modelled deterministically with
  ties broken by the first-enumerated index, matching the spec's stated
  tie-break rule.
* The forward decoding direction (`self.bwd = False`) is modelled; the
  claims under check do not exercise the backward direction.
* Decoding is modelled per utterance (`b` fixed): rows of the batch are
  independent in the source.  The greedy method's `xtime` equals `elens`
  for an unpadded single-utterance batch, hence both use one length.
-/

/-! ## Deterministic argmax / top-k / stable sort primitives -/

/-- Index of the maximal score in `l`, the first such index winning ties
(model of `torch.argmax` / the selection inside `torch.topk`). -/
def argmaxAux (s : Nat → ℚ) : List Nat → Option Nat
  | [] => none
  | i :: l =>
    match argmaxAux s l with
    | none => some i
    | some j => if s i < s j then some j else some i

/-- `torch.topk(scores, k, largest=True, sorted=True)` over the index list
`l`: the `k` indices of largest score, in descending score order, ties by
enumeration order. -/
def topkList (s : Nat → ℚ) : List Nat → Nat → List Nat
  | _, 0 => []
  | l, k + 1 =>
    match argmaxAux s l with
    | none => []
    | some i => i :: topkList s (l.erase i) k

/-- Insert `a` into a descending-sorted list, after strictly larger keys and
before equal ones (so the overall sort is stable, like Python `sorted`). -/
def insertDesc (f : α → ℚ) (a : α) : List α → List α
  | [] => [a]
  | b :: l => if f b ≤ f a then a :: b :: l else b :: insertDesc f a l

/-- Stable descending sort by key `f`: Python's
`sorted(..., key=f, reverse=True)`, also `torch.topk` with `k` equal to the
input length. -/
def sortDesc (f : α → ℚ) : List α → List α
  | [] => []
  | a :: l => insertDesc f a (sortDesc f l)

/-- Maximum of a list of scores (`torch.max` along a row); `0` on the empty
list, which no reachable call hits. -/
def listMax : List ℚ → ℚ
  | [] => 0
  | a :: l => l.foldl max a

/-- `argmaxAux` only looks at score differences: shifting every score by a
constant does not change the selected index. -/
theorem argmaxAux_shift (s : Nat → ℚ) (c : ℚ) (l : List Nat) :
    argmaxAux (fun i => c + s i) l = argmaxAux s l := by
  induction l with
  | nil => rfl
  | cons i l ih =>
    simp only [argmaxAux, ih]
    cases argmaxAux s l with
    | none => rfl
    | some j => simp [argmaxAux]

/-- `topkList` is invariant under shifting all scores by a constant. -/
theorem topkList_shift (s : Nat → ℚ) (c : ℚ) (l : List Nat) (k : Nat) :
    topkList (fun i => c + s i) l k = topkList s l k := by
  induction k generalizing l with
  | zero => rfl
  | succ k ih =>
    simp only [topkList, argmaxAux_shift]
    cases argmaxAux s l with
    | none => rfl
    | some i => simp [ih]

/-- `insertDesc` is invariant under shifting the key by a constant. -/
theorem insertDesc_shift (f : α → ℚ) (c : ℚ) (a : α) (l : List α) :
    insertDesc (fun x => c + f x) a l = insertDesc f a l := by
  induction l with
  | nil => rfl
  | cons b l ih => simp only [insertDesc, add_le_add_iff_left, ih]

/-- `sortDesc` is invariant under shifting the key by a constant. -/
theorem sortDesc_shift (f : α → ℚ) (c : ℚ) (l : List α) :
    sortDesc (fun x => c + f x) l = sortDesc f l := by
  induction l with
  | nil => rfl
  | cons a l ih => simp only [sortDesc, ih, insertDesc_shift]

/-- `topkList` returns at most `k` indices. -/
theorem topkList_length_le (s : Nat → ℚ) (l : List Nat) (k : Nat) :
    (topkList s l k).length ≤ k := by
  induction k generalizing l with
  | zero => simp [topkList]
  | succ k ih =>
    simp only [topkList]
    cases argmaxAux s l with
    | none => simp
    | some i => simpa using ih (l.erase i)

/-! ## Data model of `TransformerDecoder.beam_search`

`σ` is the opaque LM recurrent state, `ς` the opaque incremental CTC
prefix-scorer state.  Second-pass rescoring LMs (`lm_2nd`, `lm_2nd_rev`)
are not supplied (`None` in the modelled calls), and the unfinished
ensemble path (commented out in the source) has `n_models = 1`. -/

/-- `CTCPrefixScore` as used by `beam_search`: `initial` models
`initial_state()`, and `score prefixToks candIds st` models
`ctc_prefix_score(hyp, topk_ids, ctc_state)`, returning the per-candidate
log-probabilities and new states keyed by candidate token id (the source
keys them by position in `topk_ids`; the tokens are distinct). -/
structure CTCScorer (ς : Type) where
  initial : ς
  score : List Nat → List Nat → ς → (Nat → ℚ) × (Nat → ς)

/-- The opaque collaborators of one `beam_search` call: vocabulary size,
the shared sos/eos id, the decoder score source (`log softmax(output(...))`
after smoothing, i.e. `scores_attn` rows as a function of the token
prefix), the optional shallow-fusion LM (`lm.predict` on the last token),
and the optional CTC prefix scorer. -/
structure Model (σ ς : Type) where
  vocab : Nat
  eos : Nat
  attnLogProb : List Nat → Nat → ℚ
  lm : Option (Option σ → Nat → σ × (Nat → ℚ))
  ctc : Option (CTCScorer ς)

/-- The recognition parameters read from `params` at the head of
`beam_search`. -/
structure DecParams where
  beamWidth : Nat
  nbest : Nat
  excludeEos : Bool
  oracle : Bool
  ctcWeight : ℚ
  maxLenRatio : ℚ
  minLenRatio : ℚ
  lpWeight : ℚ
  lengthNorm : Bool
  lmWeight : ℚ
  eosThreshold : ℚ
  lmStateCarryOver : Bool

/-- One hypothesis dict of the source: token list (starting with the sos
symbol, which shares the eos id), the accumulated scores, and the opaque
per-hypothesis LM / CTC states.  The decoder `cache` and attention maps
are omitted: they only memoise recomputable decoder state. -/
structure Hyp (σ ς : Type) where
  hyp : List Nat
  score : ℚ
  scoreAttn : ℚ
  scoreCtc : ℚ
  scoreLm : ℚ
  lmstate : Option σ
  ctcState : Option ς
deriving DecidableEq

/-- One retained next-token candidate of one hypothesis: its token id, the
accumulated `total_scores_topk` entry, and the `total_scores_lm[k]` /
`total_scores_ctc[k]` entries read back positionally by the source. -/
structure Cand (ς : Type) where
  token : Nat
  scoreAcc : ℚ
  scoreLmK : ℚ
  scoreCtcK : ℚ
  ctcSt : Option ς
deriving DecidableEq

variable {σ ς : Type}

/-- `scores_attn[j]`: the decoder log-probability row of one hypothesis. -/
def attnRow (M : Model σ ς) (beam : Hyp σ ς) : Nat → ℚ :=
  M.attnLogProb beam.hyp

/-- `total_scores = (beam.score_attn + scores_attn[j]) * (1 - ctc_weight)`:
the coarse first-stage score over the whole vocabulary. -/
def coarseScores (M : Model σ ς) (P : DecParams) (beam : Hyp σ ς) : Nat → ℚ :=
  fun i => (beam.scoreAttn + attnRow M beam i) * (1 - P.ctcWeight)

/-- `topk_ids`: the `beam_width` tokens retained by the coarse first-stage
top-k, in descending coarse-score order. -/
def coarseIds (M : Model σ ς) (P : DecParams) (beam : Hyp σ ς) : List Nat :=
  topkList (coarseScores M P beam) (List.range M.vocab) P.beamWidth

/-- `lm.predict(y_seq[:, -1:], lmstate)` for one hypothesis row, when an LM
is configured. -/
def lmPredict (M : Model σ ς) (beam : Hyp σ ς) : Option (σ × (Nat → ℚ)) :=
  M.lm.map (fun f => f beam.lmstate (beam.hyp.getLastD M.eos))

/-- The retained candidates after the LM and length-penalty additions
(source lines 556-567), still in coarse top-k order, before any CTC
refinement. -/
def candsPreCtc (M : Model σ ς) (P : DecParams) (beam : Hyp σ ς) : List (Cand ς) :=
  (coarseIds M P beam).map fun i =>
    let lmSc : ℚ :=
      match lmPredict M beam with
      | some r => beam.scoreLm + r.2 i
      | none => 0
    let lmAdd : ℚ := match M.lm with | some _ => lmSc * P.lmWeight | none => 0
    let lpAdd : ℚ :=
      if 0 < P.lpWeight then ((beam.hyp.tail.length : ℚ) + 1) * P.lpWeight else 0
    { token := i,
      scoreAcc := coarseScores M P beam i + lmAdd + lpAdd,
      scoreLmK := lmSc,
      scoreCtcK := 0,
      ctcSt := none }

/-- The candidate list after the optional CTC refinement (source lines
569-583): add `ctc_weight * ctc_score`, re-sort, re-truncate; the source
then reads `total_scores_ctc[k]` and `total_scores_lm[k]` at the
post-sort position `k`, i.e. from the pre-sort order, which is modelled
verbatim. -/
def candsPostCtc (M : Model σ ς) (P : DecParams) (beam : Hyp σ ς) : List (Cand ς) :=
  match M.ctc with
  | none => candsPreCtc M P beam
  | some c =>
      let pre := candsPreCtc M P beam
      let res := c.score beam.hyp (coarseIds M P beam) (beam.ctcState.getD c.initial)
      let bumped := pre.map fun cd =>
        { cd with
          scoreAcc := cd.scoreAcc + res.1 cd.token * P.ctcWeight,
          ctcSt := some (res.2 cd.token) }
      let sorted := (sortDesc (fun cd => cd.scoreAcc) bumped).take P.beamWidth
      sorted.mapIdx fun k cd =>
        { cd with
          scoreCtcK := (pre.map (fun p => res.1 p.token)).getD k 0,
          scoreLmK := (pre.map (fun p => p.scoreLmK)).getD k 0 }

/-- `max(scores_attn[j, :eos].max(), scores_attn[j, eos+1:].max())`: the
best attention log-probability over all non-eos tokens. -/
def maxAttnOther (M : Model σ ς) (beam : Hyp σ ς) : ℚ :=
  listMax (((List.range M.vocab).filter (fun i => i != M.eos)).map (attnRow M beam))

/-- The two rejection tests applied to an eos candidate (source lines
591-599): the minimum-length test and the eos-threshold test. -/
def eosRejected (M : Model σ ς) (P : DecParams) (elens : Nat) (beam : Hyp σ ς) : Bool :=
  decide ((beam.hyp.length : ℚ) - 1 < (elens : ℚ) * P.minLenRatio) ||
  decide (attnRow M beam M.eos ≤ P.eosThreshold * maxAttnOther M beam)

/-- Construction of the child hypothesis appended to `new_hyps` (source
lines 601-614), including the optional length normalisation of the
stored score. -/
def mkChild (M : Model σ ς) (P : DecParams) (beam : Hyp σ ς) (cd : Cand ς) : Hyp σ ς :=
  let lnFactor : ℚ := if P.lengthNorm then (beam.hyp.tail.length : ℚ) + 1 else 1
  { hyp := beam.hyp ++ [cd.token],
    score := cd.scoreAcc / lnFactor,
    scoreAttn := beam.scoreAttn + attnRow M beam cd.token,
    scoreCtc := cd.scoreCtcK,
    scoreLm := cd.scoreLmK,
    lmstate := (lmPredict M beam).map (fun r => r.1),
    ctcState := cd.ctcSt }

/-- Expansion of one hypothesis: the retained candidates, minus the
rejected eos candidates, turned into child hypotheses. -/
def expandHyps (M : Model σ ς) (P : DecParams) (elens : Nat) (beam : Hyp σ ς) :
    List (Hyp σ ς) :=
  (candsPostCtc M P beam).filterMap fun cd =>
    if cd.token == M.eos && eosRejected M P elens beam then none
    else some (mkChild M P beam cd)

/-- `new_hyps` over all live hypotheses, in hypothesis order. -/
def stepAll (M : Model σ ς) (P : DecParams) (elens : Nat) (hyps : List (Hyp σ ς)) :
    List (Hyp σ ς) :=
  hyps.flatMap (expandHyps M P elens)

/-- Local pruning (source line 617): stable sort by cumulative score,
truncate to `beam_width`. -/
def pruneLocal (P : DecParams) (l : List (Hyp σ ς)) : List (Hyp σ ς) :=
  (sortDesc (fun h => h.score) l).take P.beamWidth

/-- Whether a pruned hypothesis is complete (source line 628): length
greater than one and last token equal to eos. -/
def endsNow (M : Model σ ς) (h : Hyp σ ς) : Bool :=
  decide (1 < h.hyp.length) && (h.hyp.getLastD M.eos == M.eos)

/-- Split of the pruned candidates into the next live beam and the newly
finished hypotheses (source lines 620-631); in oracle mode everything is
forced into the finished set at the reference length. -/
def splitStep (M : Model σ ς) (P : DecParams) (refs : List Nat) (t : Nat)
    (pruned : List (Hyp σ ς)) : List (Hyp σ ς) × List (Hyp σ ς) :=
  if P.oracle then
    if t = refs.length then ([], pruned) else (pruned, [])
  else
    (pruned.filter (fun h => !(endsNow M h)), pruned.filter (endsNow M))

/-- The step loop (source lines 487-635) over the step indices `ts`,
threading the live beam and the finished set and counting executed
steps; it breaks, truncating the finished set to `beam_width`, as soon
as the finished set reaches `beam_width`. -/
def beamLoop (M : Model σ ς) (P : DecParams) (elens : Nat) (refs : List Nat) :
    List Nat → List (Hyp σ ς) → List (Hyp σ ς) →
    List (Hyp σ ς) × List (Hyp σ ς) × Nat
  | [], hyps, ends => (hyps, ends, 0)
  | t :: ts, hyps, ends =>
      let pruned := pruneLocal P (stepAll M P elens hyps)
      let st := splitStep M P refs t pruned
      let ends2 := ends ++ st.2
      if P.beamWidth ≤ ends2.length then
        (hyps, ends2.take P.beamWidth, 1)
      else
        let r := beamLoop M P elens refs ts st.1 ends2
        (r.1, r.2.1, r.2.2 + 1)

/-- Global pruning and final sort (source lines 637-652, without the
optional second-pass LM rescoring, which is not supplied): spill the live
beam when the finished set is empty, pad it from the live beam when it is
smaller than `nbest`, then stable-sort descending by score. -/
def finalizeHyps (P : DecParams) (live ends : List (Hyp σ ς)) : List (Hyp σ ς) :=
  let padded :=
    if ends.isEmpty then live
    else if ends.length < P.nbest ∧ 1 < P.nbest then
      ends ++ live.take (P.nbest - ends.length)
    else ends
  sortDesc (fun h => h.score) padded

/-- The step budget `ytime` (source lines 482-486):
`len(refs_id[b]) + 1` in oracle mode, else
`int(math.floor(elens[b] * max_len_ratio)) + 1`; a non-positive value
gives an empty `range`, modelled by `Int.toNat`. -/
def ytimeOf (P : DecParams) (elens : Nat) (refs : List Nat) : Nat :=
  if P.oracle then refs.length + 1
  else (Int.floor ((elens : ℚ) * P.maxLenRatio) + 1).toNat

/-- The decoder object's mutable cross-call state: `self.prev_spk` and
`self.lmstate_final`. -/
structure Hidden (σ : Type) where
  prevSpk : Nat
  lmstateFinal : Option σ
deriving DecidableEq

/-- The observable per-utterance result: `nbest_hyps_idx[b]`, `scores[b]`
and whether each returned hypothesis terminated via eos. -/
structure DecOut where
  seqs : List (List Nat)
  scores : List ℚ
  eosFlags : List Bool
deriving DecidableEq

/-- The root hypothesis (source lines 471-481). -/
def initHyp (M : Model σ ς) (lmst : Option σ) : Hyp σ ς :=
  { hyp := [M.eos], score := 0, scoreAttn := 0, scoreCtc := 0, scoreLm := 0,
    lmstate := lmst, ctcState := M.ctc.map (fun c => c.initial) }

/-- The LM state the root hypothesis starts from (source lines 464-468):
the stored final state is used only when the speaker repeats, carry-over
is enabled and a (recurrent) LM is supplied. -/
def initialLmState (M : Model σ ς) (P : DecParams) (speaker : Option Nat)
    (hid : Hidden σ) : Option σ :=
  match speaker with
  | some spk =>
      if spk == hid.prevSpk && P.lmStateCarryOver && M.lm.isSome then
        hid.lmstateFinal
      else none
  | none => none

/-- One returned token sequence: the hypothesis without its leading sos
symbol, with the trailing eos stripped when `exclude_eos` is set and the
hypothesis ends in eos (source lines 681, 689-695). -/
def hypSeq (M : Model σ ς) (P : DecParams) (h : Hyp σ ς) : List Nat :=
  let s := h.hyp.tail
  if P.excludeEos && (h.hyp.getLastD M.eos == M.eos) then s.dropLast else s

/-- The step loop of one utterance, run from the root hypothesis over the
`range(ytime)` step indices. -/
def decLoop (M : Model σ ς) (P : DecParams) (elens : Nat) (refs : List Nat)
    (speaker : Option Nat) (hid : Hidden σ) :
    List (Hyp σ ς) × List (Hyp σ ς) × Nat :=
  beamLoop M P elens refs (List.range (ytimeOf P elens refs))
    [initHyp M (initialLmState M P speaker hid)] []

/-- The finished set of one utterance after global pruning and the final
sort. -/
def decFin (M : Model σ ς) (P : DecParams) (elens : Nat) (refs : List Nat)
    (speaker : Option Nat) (hid : Hidden σ) : List (Hyp σ ς) :=
  finalizeHyps P (decLoop M P elens refs speaker hid).1
    (decLoop M P elens refs speaker hid).2.1

/-- One utterance of `beam_search` (the body of the `for b in range(bs)`
loop plus the output assembly): returns `none` exactly when the source
raises `IndexError` reading `end_hyps[n]` for `n < nbest`, and the
updated mutable decoder state (`prev_spk` is written before decoding, the
final LM state only when the finished set is non-empty and the outputs
were assembled). -/
def decodeUtt (M : Model σ ς) (P : DecParams) (elens : Nat) (refs : List Nat)
    (speaker : Option Nat) (hid : Hidden σ) : Option DecOut × Hidden σ :=
  let fin := decFin M P elens refs speaker hid
  if P.nbest ≤ fin.length then
    (some { seqs := (fin.take P.nbest).map (hypSeq M P),
            scores := (fin.take P.nbest).map (fun h => h.scoreAttn),
            eosFlags := (fin.take P.nbest).map
              (fun h => h.hyp.getLastD M.eos == M.eos) },
     { prevSpk := speaker.getD hid.prevSpk,
       lmstateFinal :=
         match fin.head? with
         | some top => top.lmstate
         | none => hid.lmstateFinal })
  else
    (none, { prevSpk := speaker.getD hid.prevSpk,
             lmstateFinal := hid.lmstateFinal })

/-- The configuration assertions `beam_search` runs before any decoding
step (source lines 412, 430-438, 448-449): the beam/n-best contract, and
a positive weight for each supplied scorer. -/
def configOk (M : Model σ ς) (P : DecParams) : Prop :=
  (1 ≤ P.nbest ∧ P.nbest ≤ P.beamWidth) ∧
  (M.lm.isSome = true → 0 < P.lmWeight) ∧
  (M.ctc.isSome = true → 0 < P.ctcWeight)

instance (M : Model σ ς) (P : DecParams) : Decidable (configOk M P) := by
  unfold configOk; infer_instance

/-- `beam_search` with its assertion phase: `none` models an
`AssertionError` raised before the decoding loop starts (no partial
output). -/
def beamSearchChecked (M : Model σ ς) (P : DecParams) (elens : Nat)
    (refs : List Nat) (speaker : Option Nat) (hid : Hidden σ) :
    Option (Option DecOut × Hidden σ) :=
  if configOk M P then some (decodeUtt M P elens refs speaker hid) else none

/-! ## `TransformerDecoder.greedy` (non-oracle, forward direction) -/

/-- The greedy loop (source lines 306-336) for one utterance: emit the
argmax token of the decoder distribution, stop after emitting eos or when
the budget runs out; the returned list is `hyps_batch[:ylens]`, i.e. all
emitted tokens up to and including the first eos. -/
def greedyGo (M : Model σ ς) : List Nat → Nat → List Nat
  | _, 0 => []
  | yseq, fuel + 1 =>
      let y := (argmaxAux (M.attnLogProb yseq) (List.range M.vocab)).getD 0
      if y == M.eos then [y] else y :: greedyGo M (yseq ++ [y]) fuel

/-- `TransformerDecoder.greedy` for one utterance, starting from the sos
symbol with budget `int(math.floor(xtime * max_len_ratio)) + 1`. -/
def greedyDec (M : Model σ ς) (maxLenRatio : ℚ) (xtime : Nat) : List Nat :=
  greedyGo M [M.eos] ((Int.floor ((xtime : ℚ) * maxLenRatio) + 1).toNat)

/-! ## `MoChA.forward`, hard mode (inference) -/

/-- `torch.cumsum(x, dim=1)` at index `j`: the inclusive running sum. -/
def cumsumAt (n : Nat) (x : Fin n → ℚ) (j : Fin n) : ℚ :=
  ∑ k in Finset.Iic j, x k

/-- `exclusive_cumprod(x)` at index `j`
(`[a, b, c] => [1, a, a * b]`): the product of the entries before `j`. -/
def exclusiveCumprodAt (n : Nat) (x : Fin n → ℚ) (j : Fin n) : ℚ :=
  ∏ k in Finset.Iio j, x k

/-- `p_choose_i` in hard mode (source lines 209-212): attend when the
sigmoid of the monotonic energy is at least one half (`emitProbs` is the
opaque `torch.sigmoid(e_mono)` row), masked by the cumulative sum of the
previous attention weights. -/
def pChoose (n : Nat) (emitProbs awPrev : Fin n → ℚ) (j : Fin n) : ℚ :=
  (if (1 : ℚ) / 2 ≤ emitProbs j then 1 else 0) * cumsumAt n awPrev j

/-- `alpha = p_choose_i * exclusive_cumprod(1 - p_choose_i)` (source line
219): the hard monotonic attention row of `MoChA.forward` with
`mode='hard'`. -/
def mochaHardAlpha (n : Nat) (emitProbs awPrev : Fin n → ℚ) (j : Fin n) : ℚ :=
  pChoose n emitProbs awPrev j *
    exclusiveCumprodAt n (fun k => 1 - pChoose n emitProbs awPrev k) j

/-! ## `HierarchicalCTC.forward` -/

/-- The opaque pieces of one `HierarchicalCTC.forward` call: the main-loss
weight `self.main_loss_weight`, and the two warpctc `CTCLoss`
applications as functions of the (shifted, permuted) label rows — the
logits, lengths and concatenation are fixed inside them. -/
structure HCTCModel where
  mainLossWeight : ℚ
  ctcLossMain : List (List ℤ) → ℚ
  ctcLossSub : List (List ℤ) → ℚ

/-- `HierarchicalCTC.forward` (source lines 144-187): shift both label
tensors up by one (index 0 is reserved for blank), permute rows by the
encoder's `perm_indices`, compute both CTC losses, blend them with
`main_loss_weight`, and average by the mini-batch size. -/
def hctcForward (Mo : HCTCModel) (permIdx : List Nat)
    (labels labelsSub : List (List ℤ)) (bs : Nat) : ℚ × ℚ × ℚ :=
  let shifted := labels.map (fun row => row.map (fun x => x + 1))
  let shiftedSub := labelsSub.map (fun row => row.map (fun x => x + 1))
  let permuted := permIdx.map (fun i => shifted.getD i [])
  let permutedSub := permIdx.map (fun i => shiftedSub.getD i [])
  let lossMain := Mo.ctcLossMain permuted
  let lossSub := Mo.ctcLossSub permutedSub
  let loss := lossMain * Mo.mainLossWeight + lossSub * (1 - Mo.mainLossWeight)
  (loss / (bs : ℚ),
   lossMain * Mo.mainLossWeight / (bs : ℚ),
   lossSub * (1 - Mo.mainLossWeight) / (bs : ℚ))

/-! ## Auxiliary lemmas on the sorting primitives -/

/-- `insertDesc` commutes with mapping, pulling the key through the map. -/
theorem insertDesc_map {α β : Type} (f : β → ℚ) (g : α → β) (a : α) (l : List α) :
    insertDesc f (g a) (l.map g) = (insertDesc (fun x => f (g x)) a l).map g := by
  induction l with
  | nil => rfl
  | cons b l ih =>
    simp only [List.map_cons, insertDesc]
    by_cases h : f (g b) ≤ f (g a) <;> simp [h, ih]

/-- `sortDesc` commutes with mapping, pulling the key through the map. -/
theorem sortDesc_map {α β : Type} (f : β → ℚ) (g : α → β) (l : List α) :
    sortDesc f (l.map g) = (sortDesc (fun x => f (g x)) l).map g := by
  induction l with
  | nil => rfl
  | cons a l ih => simp only [List.map_cons, sortDesc, ih, insertDesc_map]

/-- Mapping a token-preserving `mapIdx` away. -/
theorem map_token_mapIdx (l : List (Cand ς)) (f : Nat → Cand ς → Cand ς)
    (hf : ∀ k cd, (f k cd).token = cd.token) :
    (l.mapIdx f).map Cand.token = l.map Cand.token := by
  rw [List.mapIdx_eq_enum_map, List.map_map]
  have h1 : (Cand.token ∘ Function.uncurry f) =
      (fun p : Nat × Cand ς => Cand.token p.2) := by
    funext p
    exact hf p.1 p.2
  rw [h1]
  have h2 : (fun p : Nat × Cand ς => Cand.token p.2) =
      Cand.token ∘ Prod.snd := rfl
  rw [h2, ← List.map_map]
  congr 1
  exact List.enum_map_snd l

/-! ## Claim C1: two-stage pruning inside one step -/

/-- C1: In every beam-search step, for each live hypothesis the candidates
are ranked by the partial score
`attention_score + log(decoder_probs) * (1 - ctc_weight)` and the top
`beam_width` of them are selected by this partial score before any LM,
CTC or length-penalty term is added (the source computes
`(attention_score + log(decoder_probs)) * (1 - ctc_weight)`, which
differs from the stated partial score by the per-hypothesis constant
`attention_score * ctc_weight` and therefore yields the same ranking);
when CTC is configured, after `ctc_weight * ctc_score` is added the
candidate list is re-sorted and re-truncated to `beam_width` by the
now-complete score. -/
theorem C1_two_stage_pruning (M : Model σ ς) (P : DecParams) (beam : Hyp σ ς)
    (c : CTCScorer ς) (hc : M.ctc = some c) :
    coarseIds M P beam =
      topkList
        (fun i => beam.scoreAttn + M.attnLogProb beam.hyp i * (1 - P.ctcWeight))
        (List.range M.vocab) P.beamWidth ∧
    (candsPostCtc M P beam).map Cand.token =
      ((sortDesc
          (fun cd =>
            (beam.scoreAttn + M.attnLogProb beam.hyp cd.token * (1 - P.ctcWeight)) +
              (cd.scoreAcc - coarseScores M P beam cd.token) +
              (c.score beam.hyp (coarseIds M P beam)
                  (beam.ctcState.getD c.initial)).1 cd.token * P.ctcWeight)
          (candsPreCtc M P beam)).take P.beamWidth).map Cand.token := by
  have hx : coarseScores M P beam = fun i =>
      (-(beam.scoreAttn * P.ctcWeight)) +
        (beam.scoreAttn + M.attnLogProb beam.hyp i * (1 - P.ctcWeight)) := by
    funext i
    unfold coarseScores attnRow
    ring
  constructor
  · rw [coarseIds, hx, topkList_shift]
  · simp only [candsPostCtc, hc]
    rw [map_token_mapIdx]
    · rw [List.map_take, List.map_take]
      congr 1
      have hg : (fun cd : Cand ς =>
          { cd with
            scoreAcc := cd.scoreAcc +
              (c.score beam.hyp (coarseIds M P beam)
                (beam.ctcState.getD c.initial)).1 cd.token * P.ctcWeight,
            ctcSt := some ((c.score beam.hyp (coarseIds M P beam)
                (beam.ctcState.getD c.initial)).2 cd.token) }) =
          fun cd : Cand ς =>
          ⟨cd.token,
            cd.scoreAcc +
              (c.score beam.hyp (coarseIds M P beam)
                (beam.ctcState.getD c.initial)).1 cd.token * P.ctcWeight,
            cd.scoreLmK, cd.scoreCtcK,
            some ((c.score beam.hyp (coarseIds M P beam)
                (beam.ctcState.getD c.initial)).2 cd.token)⟩ := rfl
    -- code-side sort of the bumped list, pushed through the map
      rw [hg, sortDesc_map]
      rw [List.map_map]
      have hkey :
          (fun cd : Cand ς =>
            (beam.scoreAttn + M.attnLogProb beam.hyp cd.token * (1 - P.ctcWeight)) +
              (cd.scoreAcc - coarseScores M P beam cd.token) +
              (c.score beam.hyp (coarseIds M P beam)
                  (beam.ctcState.getD c.initial)).1 cd.token * P.ctcWeight) =
          fun cd : Cand ς =>
            (beam.scoreAttn * P.ctcWeight) +
              (cd.scoreAcc +
                (c.score beam.hyp (coarseIds M P beam)
                    (beam.ctcState.getD c.initial)).1 cd.token * P.ctcWeight) := by
        funext cd
        unfold coarseScores attnRow
        ring
      rw [hkey, sortDesc_shift]
      rfl
    · intro k cd
      rfl

/-- A small concrete CTC scorer used to instantiate theorems. -/
def wCtc1 : CTCScorer Unit :=
  { initial := (),
    score := fun _ _ _ => (fun i => (i : ℚ) - 2, fun _ => ()) }

/-- A small concrete model with CTC configured. -/
def wM1 : Model Unit Unit :=
  { vocab := 3, eos := 1,
    attnLogProb := fun _ i => if i = 0 then -1 else if i = 1 then -2 else -3,
    lm := none, ctc := some wCtc1 }

/-- A small concrete parameter set (beam width 2, CTC weight one half). -/
def wP1 : DecParams :=
  { beamWidth := 2, nbest := 1, excludeEos := false, oracle := false,
    ctcWeight := 1/2, maxLenRatio := 1, minLenRatio := 0, lpWeight := 0,
    lengthNorm := false, lmWeight := 0, eosThreshold := 1,
    lmStateCarryOver := false }

theorem C1_two_stage_pruning_witness :
    wM1.ctc = some wCtc1 ∧
    coarseIds wM1 wP1 (initHyp wM1 none) =
      topkList
        (fun i => (initHyp wM1 none).scoreAttn +
          wM1.attnLogProb (initHyp wM1 none).hyp i * (1 - wP1.ctcWeight))
        (List.range wM1.vocab) wP1.beamWidth :=
  ⟨rfl, (C1_two_stage_pruning wM1 wP1 (initHyp wM1 none) wCtc1 rfl).1⟩

/-! ## Claim C4: bounded step loop, early stop -/

/-- C4: The step loop executes at most `ts.length` iterations, where the
actual step-index list of `decodeUtt` has length
`floor(encoded_length * max_len_ratio) + 1` (normal mode) or the oracle
reference length plus one (oracle mode); whenever the loop stops before
exhausting the budget, the finished set was truncated to exactly
`beam_width` hypotheses; starting from a finished set within the width
bound it stays within it.  The loop is a total function, so decoding one
utterance always terminates. -/
theorem C4_step_budget (M : Model σ ς) (P : DecParams) (elens : Nat)
    (refs : List Nat) (ts : List Nat) (hyps ends : List (Hyp σ ς)) :
    (beamLoop M P elens refs ts hyps ends).2.2 ≤ ts.length ∧
    (ends.length ≤ P.beamWidth →
      (beamLoop M P elens refs ts hyps ends).2.1.length ≤ P.beamWidth) ∧
    ((beamLoop M P elens refs ts hyps ends).2.2 < ts.length →
      (beamLoop M P elens refs ts hyps ends).2.1.length = P.beamWidth) ∧
    (List.range (ytimeOf P elens refs)).length =
      (if P.oracle then refs.length + 1
       else (Int.floor ((elens : ℚ) * P.maxLenRatio) + 1).toNat) := by
  have key : ∀ (ts : List Nat) (hyps ends : List (Hyp σ ς)),
      (beamLoop M P elens refs ts hyps ends).2.2 ≤ ts.length ∧
      (ends.length ≤ P.beamWidth →
        (beamLoop M P elens refs ts hyps ends).2.1.length ≤ P.beamWidth) ∧
      ((beamLoop M P elens refs ts hyps ends).2.2 < ts.length →
        (beamLoop M P elens refs ts hyps ends).2.1.length = P.beamWidth) := by
    intro ts
    induction ts with
    | nil =>
      intro hyps ends
      exact ⟨le_refl _, fun h => h, fun h => absurd h (by simp [beamLoop])⟩
    | cons t ts ih =>
      intro hyps ends
      simp only [beamLoop]
      split
      · rename_i hbr
        refine ⟨by simp, fun _ => ?_, fun _ => ?_⟩ <;>
          rw [List.length_take]
        · exact min_le_left _ _
        · exact min_eq_left hbr
      · rename_i hbr
        have h2 : (ends ++ (splitStep M P refs t
            (pruneLocal P (stepAll M P elens hyps))).2).length ≤ P.beamWidth :=
          (not_le.mp hbr).le
        refine ⟨?_, fun _ => ?_, fun hlt => ?_⟩
        · exact Nat.succ_le_succ (ih _ _).1
        · exact (ih _ _).2.1 h2
        · exact (ih _ _).2.2 (Nat.lt_of_succ_lt_succ hlt)
  exact ⟨(key ts hyps ends).1, (key ts hyps ends).2.1, (key ts hyps ends).2.2,
    by simp [ytimeOf]⟩

theorem C4_step_budget_witness :
    (beamLoop wM1 wP1 1 [] (List.range (ytimeOf wP1 1 []))
      [initHyp wM1 none] []).2.2 ≤ (List.range (ytimeOf wP1 1 [])).length :=
  (C4_step_budget wM1 wP1 1 [] (List.range (ytimeOf wP1 1 []))
    [initHyp wM1 none] []).1

/-! ## Claim C7: determinism without LM state carry-over -/

/-- C7: With LM state carry-over disabled, the per-utterance result of
`beam_search` does not depend on the decoder object's hidden mutable
state (`self.prev_spk`, `self.lmstate_final`): two calls with identical
arguments and any two hidden states produce identical output sequences
and scores, so repeated calls are bit-identical. -/
theorem C7_determinism (M : Model σ ς) (P : DecParams) (elens : Nat)
    (refs : List Nat) (speaker : Option Nat) (h1 h2 : Hidden σ)
    (hco : P.lmStateCarryOver = false) :
    (decodeUtt M P elens refs speaker h1).1 =
      (decodeUtt M P elens refs speaker h2).1 := by
  have hinit : ∀ h : Hidden σ, initialLmState M P speaker h = none := by
    intro h
    unfold initialLmState
    cases speaker with
    | none => rfl
    | some spk => simp [hco]
  simp only [decodeUtt, decFin, decLoop, hinit]
  split_ifs <;> rfl

theorem C7_determinism_witness :
    wP1.lmStateCarryOver = false ∧
    (decodeUtt wM1 wP1 1 [] (some 5) ⟨5, some ()⟩).1 =
      (decodeUtt wM1 wP1 1 [] (some 5) ⟨0, none⟩).1 :=
  ⟨rfl, C7_determinism wM1 wP1 1 [] (some 5) ⟨5, some ()⟩ ⟨0, none⟩ rfl⟩

/-! ## Claim C8: configuration errors -/

/-- C8 (amended): the assertion phase rejects, before any decoding step,
an n-best request below one or above the beam width (hence also any beam
width below one), a non-positive LM weight when a first-pass LM is
supplied, and a non-positive CTC weight when CTC log-probabilities are
supplied; no partial output is produced in those cases.  (A negative
weight for a scorer that is not supplied is not checked — see the
counterexample.) -/
theorem C8_amended_failfast (M : Model σ ς) (P : DecParams) (elens : Nat)
    (refs : List Nat) (speaker : Option Nat) (hid : Hidden σ)
    (h : P.beamWidth < 1 ∨ P.nbest < 1 ∨ P.beamWidth < P.nbest ∨
        (M.lm.isSome = true ∧ P.lmWeight ≤ 0) ∨
        (M.ctc.isSome = true ∧ P.ctcWeight ≤ 0)) :
    beamSearchChecked M P elens refs speaker hid = none := by
  unfold beamSearchChecked
  split
  · rename_i hOk
    exfalso
    obtain ⟨⟨hn1, hn2⟩, hlm, hctc⟩ := hOk
    rcases h with h | h | h | ⟨ha, hb⟩ | ⟨ha, hb⟩
    · omega
    · omega
    · omega
    · exact absurd (hlm ha) (not_lt.mpr hb)
    · exact absurd (hctc ha) (not_lt.mpr hb)
  · rfl

/-- The model used for the C8 counterexample: no LM and no CTC
log-probabilities supplied. -/
def cexM8 : Model Unit Unit :=
  { vocab := 3, eos := 1,
    attnLogProb := fun _ i => if i = 0 then -2 else if i = 1 then -1 else -2,
    lm := none, ctc := none }

/-- A configuration with a negative weight (`recog_ctc_weight = -1`). -/
def cexP8 : DecParams :=
  { beamWidth := 1, nbest := 1, excludeEos := false, oracle := false,
    ctcWeight := -1, maxLenRatio := 1, minLenRatio := 0, lpWeight := 0,
    lengthNorm := false, lmWeight := 1, eosThreshold := 1,
    lmStateCarryOver := false }

set_option maxHeartbeats 1000000 in
/-- Concrete evaluation: with `cexM8`/`cexP8` the finished set after
finalize is a single eos-terminated hypothesis. -/
theorem decFin_cex8_eval :
    decFin cexM8 cexP8 1 [] none ⟨0, none⟩ =
      [⟨[1, 1], -2, -1, 0, 0, none, none⟩] := by
  have hv : cexM8.vocab = 3 := rfl
  have he : cexM8.eos = 1 := rfl
  have hlm : cexM8.lm = none := rfl
  have hctc : cexM8.ctc = (none : Option (CTCScorer Unit)) := rfl
  have hA : ∀ ys i, cexM8.attnLogProb ys i =
      (if i = 0 then -2 else if i = 1 then -1 else -2 : ℚ) := fun _ _ => rfl
  have hW : cexP8.beamWidth = 1 := rfl
  have hCW : cexP8.ctcWeight = -1 := rfl
  have hor : cexP8.oracle = false := rfl
  have hmin : cexP8.minLenRatio = 0 := rfl
  have hlp : cexP8.lpWeight = 0 := rfl
  have hln : cexP8.lengthNorm = false := rfl
  have hth : cexP8.eosThreshold = 1 := rfl
  have hyt : ytimeOf cexP8 1 [] = 2 := by
    norm_num [ytimeOf, cexP8]
    decide
  have h1 : coarseIds cexM8 cexP8 ⟨[1], 0, 0, 0, 0, none, none⟩ = [1] := by
    simp only [coarseIds, hv, hW]
    rw [show List.range 3 = [0, 1, 2] from rfl]
    simp only [topkList, argmaxAux, coarseScores, attnRow, hA, hCW]
    norm_num
  have h2 : candsPostCtc cexM8 cexP8 ⟨[1], 0, 0, 0, 0, none, none⟩ =
      [{ token := 1, scoreAcc := -2, scoreLmK := 0, scoreCtcK := 0, ctcSt := none }] := by
    rw [candsPostCtc, hctc]
    simp only [candsPreCtc, h1, lmPredict, hlm, Option.map_none, List.map]
    simp only [coarseScores, attnRow, hA, hCW, hlp]
    norm_num
  have hmax : maxAttnOther cexM8 ⟨[1], 0, 0, 0, 0, none, none⟩ = -2 := by
    simp only [maxAttnOther, hv, he]
    rw [show (List.range 3).filter (fun i => i != 1) = [0, 2] from rfl]
    simp only [List.map, attnRow, hA, listMax, List.foldl]
    norm_num
  have h3 : eosRejected cexM8 cexP8 1 ⟨[1], 0, 0, 0, 0, none, none⟩ = false := by
    simp only [eosRejected, hmin, hth, hmax, attnRow, hA, he]
    norm_num
  have h4 : expandHyps cexM8 cexP8 1 ⟨[1], 0, 0, 0, 0, none, none⟩ =
      [⟨[1, 1], -2, -1, 0, 0, none, none⟩] := by
    simp only [expandHyps, h2, h3, List.filterMap, Bool.and_false, mkChild, hln,
      attnRow, hA, he, lmPredict, hlm, Option.map_none]
    norm_num
  have h5 : stepAll cexM8 cexP8 1 [⟨[1], 0, 0, 0, 0, none, none⟩] =
      [⟨[1, 1], -2, -1, 0, 0, none, none⟩] := by
    simp only [stepAll, List.flatMap_cons, List.flatMap_nil, h4, List.append_nil]
  have h6 : pruneLocal cexP8 ([⟨[1, 1], -2, -1, 0, 0, none, none⟩] : List (Hyp Unit Unit)) =
      [⟨[1, 1], -2, -1, 0, 0, none, none⟩] := by
    simp only [pruneLocal, sortDesc, insertDesc, hW, List.take]
  have h7 : splitStep cexM8 cexP8 [] 0 ([⟨[1, 1], -2, -1, 0, 0, none, none⟩] : List (Hyp Unit Unit)) =
      ([], [⟨[1, 1], -2, -1, 0, 0, none, none⟩]) := by
    simp only [splitStep, hor, Bool.false_eq_true, if_false, endsNow, he]
    rfl
  have h8 : beamLoop cexM8 cexP8 1 [] [0, 1] [⟨[1], 0, 0, 0, 0, none, none⟩] [] =
      ([⟨[1], 0, 0, 0, 0, none, none⟩], [⟨[1, 1], -2, -1, 0, 0, none, none⟩], 1) := by
    rw [beamLoop, h5, h6, h7]
    simp [hW]
  have h9 : finalizeHyps cexP8 ([⟨[1], 0, 0, 0, 0, none, none⟩] : List (Hyp Unit Unit))
      [⟨[1, 1], -2, -1, 0, 0, none, none⟩] = [⟨[1, 1], -2, -1, 0, 0, none, none⟩] := by
    simp [finalizeHyps, sortDesc, insertDesc, cexP8]
  have h10 : initialLmState cexM8 cexP8 none (⟨0, none⟩ : Hidden Unit) = none := rfl
  have hloop : decLoop cexM8 cexP8 1 [] none ⟨0, none⟩ =
      ([⟨[1], 0, 0, 0, 0, none, none⟩], [⟨[1, 1], -2, -1, 0, 0, none, none⟩], 1) := by
    rw [decLoop, h10]
    rw [show initHyp cexM8 (none : Option Unit) = ⟨[1], 0, 0, 0, 0, none, none⟩ from rfl]
    rw [hyt, show List.range 2 = [0, 1] from rfl, h8]
  rw [decFin, hloop]
  exact h9

set_option maxHeartbeats 1000000 in
/-- Concrete evaluation: with `cexM8`/`cexP8` (negative CTC weight, no CTC
supplied) `beam_search` passes its assertions and produces a full decode. -/
theorem beamSearchChecked_cex8_eval :
    beamSearchChecked cexM8 cexP8 1 [] none ⟨0, none⟩ =
      some (some ⟨[[1]], [-1], [true]⟩, ⟨0, none⟩) := by
  have hcfg : configOk cexM8 cexP8 := by
    refine ⟨⟨le_refl 1, le_refl 1⟩, ?_, ?_⟩ <;>
      simp [show cexM8.lm = none from rfl, show cexM8.ctc = (none : Option (CTCScorer Unit)) from rfl]
  rw [beamSearchChecked, if_pos hcfg]
  rw [decodeUtt, decFin_cex8_eval]
  norm_num [hypSeq, show cexM8.eos = 1 from rfl]
  rfl

/-- C8 counterexample: a negative weight (`ctc_weight = -1`, with no CTC
log-probabilities supplied) does not fail fast — `beam_search` runs the
decoding loop and returns a full decoding output. -/
theorem C8_counterexample :
    cexP8.ctcWeight < 0 ∧
    beamSearchChecked cexM8 cexP8 1 [] none ⟨0, none⟩ =
      some (some ⟨[[1]], [-1], [true]⟩, ⟨0, none⟩) :=
  ⟨by norm_num [cexP8], beamSearchChecked_cex8_eval⟩

/-- A configuration violating the n-best/beam-width contract. -/
def cexP8b : DecParams :=
  { beamWidth := 1, nbest := 2, excludeEos := false, oracle := false,
    ctcWeight := 0, maxLenRatio := 1, minLenRatio := 0, lpWeight := 0,
    lengthNorm := false, lmWeight := 1, eosThreshold := 1,
    lmStateCarryOver := false }

theorem C8_amended_failfast_witness :
    cexP8b.beamWidth < cexP8b.nbest ∧
    beamSearchChecked cexM8 cexP8b 1 [] none ⟨0, none⟩ = none :=
  ⟨by norm_num [cexP8b],
   C8_amended_failfast cexM8 cexP8b 1 [] none ⟨0, none⟩
     (Or.inr (Or.inr (Or.inl (by norm_num [cexP8b]))))⟩

/-! ## Claim C10: hierarchical CTC loss blending -/

/-- C10: `HierarchicalCTC.forward` returns `(loss, main_part, sub_part)`
with `loss = (main_loss_weight * loss_main + (1 - main_loss_weight) *
loss_sub) / batch_size`, `main_part = main_loss_weight * loss_main /
batch_size`, `sub_part = (1 - main_loss_weight) * loss_sub / batch_size`,
hence `loss = main_part + sub_part`; both CTC losses are computed on
labels shifted up by one (index 0 reserved for the blank symbol). -/
theorem C10_hctc_forward (Mo : HCTCModel) (permIdx : List Nat)
    (labels labelsSub : List (List ℤ)) (bs : Nat) :
    hctcForward Mo permIdx labels labelsSub bs =
      (let lossMain := Mo.ctcLossMain (permIdx.map (fun i =>
        (labels.map (fun row => row.map (fun x => x + 1))).getD i []))
       let lossSub := Mo.ctcLossSub (permIdx.map (fun i =>
        (labelsSub.map (fun row => row.map (fun x => x + 1))).getD i []))
       ((lossMain * Mo.mainLossWeight + lossSub * (1 - Mo.mainLossWeight)) / (bs : ℚ),
        lossMain * Mo.mainLossWeight / (bs : ℚ),
        lossSub * (1 - Mo.mainLossWeight) / (bs : ℚ))) ∧
    (hctcForward Mo permIdx labels labelsSub bs).1 =
      (hctcForward Mo permIdx labels labelsSub bs).2.1 +
        (hctcForward Mo permIdx labels labelsSub bs).2.2 := by
  constructor
  · rfl
  · simp only [hctcForward]
    rw [add_div]

/-! ## Claim C9: hard monotonic attention stays one-hot -/

/-- C9: In hard mode, starting from an all-zero or one-hot previous
attention row, `MoChA.forward` returns an attention row `alpha` that is
again all zeros or one-hot: either every entry is `0`, or there is
exactly one entry equal to `1` — at the first frame at or after the
previously attended frame whose sigmoid monotonic energy reaches one
half — and all other entries are `0`. -/
theorem C9_mocha_hard_onehot (n : Nat) (emitProbs awPrev : Fin n → ℚ)
    (h : (∀ k, awPrev k = 0) ∨ ∃ i, awPrev = fun k => if k = i then 1 else 0) :
    (∀ j, mochaHardAlpha n emitProbs awPrev j = 0) ∨
    (∃ j, (mochaHardAlpha n emitProbs awPrev = fun k => if k = j then 1 else 0) ∧
      (1 : ℚ) / 2 ≤ emitProbs j ∧
      ∃ i, (awPrev = fun k => if k = i then 1 else 0) ∧ i ≤ j ∧
        ∀ k, i ≤ k → k < j → emitProbs k < 1 / 2) := by
  rcases h with hz | ⟨i, haw⟩
  · left
    intro j
    have hc : cumsumAt n awPrev j = 0 := by
      unfold cumsumAt
      exact Finset.sum_eq_zero fun k _ => hz k
    unfold mochaHardAlpha pChoose
    rw [hc, mul_zero, zero_mul]
  · have hcs : ∀ j, cumsumAt n awPrev j = if i ≤ j then 1 else 0 := by
      intro j
      unfold cumsumAt
      rw [haw]
      rw [Finset.sum_ite_eq' (Finset.Iic j) i (fun _ => (1 : ℚ))]
      simp [Finset.mem_Iic]
    have hp : ∀ j, pChoose n emitProbs awPrev j =
        if i ≤ j ∧ (1 : ℚ) / 2 ≤ emitProbs j then 1 else 0 := by
      intro j
      unfold pChoose
      rw [hcs j]
      by_cases h1 : (1 : ℚ) / 2 ≤ emitProbs j <;>
        by_cases h2 : i ≤ j <;>
          simp [h1, h2]
    by_cases hex : ∃ j : Fin n, i ≤ j ∧ (1 : ℚ) / 2 ≤ emitProbs j
    · right
      have hS : (Finset.univ.filter
          (fun j : Fin n => i ≤ j ∧ (1 : ℚ) / 2 ≤ emitProbs j)).Nonempty := by
        obtain ⟨j, hj⟩ := hex
        exact ⟨j, by
          simp only [Finset.mem_filter, Finset.mem_univ, true_and]
          exact hj⟩
      set S := Finset.univ.filter
        (fun j : Fin n => i ≤ j ∧ (1 : ℚ) / 2 ≤ emitProbs j) with hSdef
      set j0 := S.min' hS with hj0def
      have hj0S : j0 ∈ S := S.min'_mem hS
      have hj0P : i ≤ j0 ∧ (1 : ℚ) / 2 ≤ emitProbs j0 := by
        have := hj0S
        rw [hSdef] at this
        simpa using this
      have hmin : ∀ j ∈ S, j0 ≤ j := fun j hj => S.min'_le j hj
      have hpzero : ∀ k, k < j0 → pChoose n emitProbs awPrev k = 0 := by
        intro k hk
        rw [hp k]
        by_cases hc : i ≤ k ∧ (1 : ℚ) / 2 ≤ emitProbs k
        · exfalso
          have : k ∈ S := by
            rw [hSdef]
            simp only [Finset.mem_filter, Finset.mem_univ, true_and]
            exact hc
          exact absurd (hmin k this) (not_le.mpr hk)
        · rw [if_neg hc]
      refine ⟨j0, ?_, hj0P.2, i, haw, hj0P.1, ?_⟩
      · funext k
        unfold mochaHardAlpha exclusiveCumprodAt
        by_cases hkj : k = j0
        · rw [hkj, if_pos rfl, hp j0, if_pos ⟨hj0P.1, hj0P.2⟩]
          have hprod : ∏ m in Finset.Iio j0,
              (1 - pChoose n emitProbs awPrev m) = 1 :=
            Finset.prod_eq_one (fun m hm => by
              rw [hpzero m (Finset.mem_Iio.mp hm)]; ring)
          rw [hprod, one_mul]
        · rw [if_neg hkj, hp k]
          by_cases hc : i ≤ k ∧ (1 : ℚ) / 2 ≤ emitProbs k
          · have hkS : k ∈ S := by
              rw [hSdef]
              simp only [Finset.mem_filter, Finset.mem_univ, true_and]
              exact hc
            have hlt : j0 < k := lt_of_le_of_ne (hmin k hkS) (fun e => hkj (e.symm))
            rw [if_pos hc]
            have : ∏ m in Finset.Iio k, (1 - pChoose n emitProbs awPrev m) = 0 := by
              apply Finset.prod_eq_zero (Finset.mem_Iio.mpr hlt)
              rw [hp j0, if_pos ⟨hj0P.1, hj0P.2⟩]
              ring
            rw [this, mul_zero]
          · rw [if_neg hc, zero_mul]
      · intro k hik hkj0
        by_contra hcon
        push_neg at hcon
        have : k ∈ S := by
          rw [hSdef]
          simp only [Finset.mem_filter, Finset.mem_univ, true_and]
          exact ⟨hik, hcon⟩
        exact absurd (hmin k this) (not_le.mpr hkj0)
    · left
      intro j
      unfold mochaHardAlpha
      rw [hp j]
      push_neg at hex
      by_cases h2 : i ≤ j
      · rw [if_neg (fun hc => absurd hc.2 (not_le.mpr (hex j h2)))]
        rw [zero_mul]
      · rw [if_neg (fun hc => h2 hc.1), zero_mul]

/-- The one-hot previous attention row used for the C9 witness. -/
def wAw9 : Fin 3 → ℚ := fun k => if k = 1 then 1 else 0

/-- The emission-probability row used for the C9 witness. -/
def wProbs9 : Fin 3 → ℚ := fun k => if k = 2 then 1 else 0

theorem C9_mocha_hard_onehot_witness :
    ((∀ k, wAw9 k = 0) ∨ ∃ i, wAw9 = fun k => if k = i then 1 else 0) ∧
    ((∀ j, mochaHardAlpha 3 wProbs9 wAw9 j = 0) ∨
     (∃ j, (mochaHardAlpha 3 wProbs9 wAw9 = fun k => if k = j then 1 else 0) ∧
       (1 : ℚ) / 2 ≤ wProbs9 j ∧
       ∃ i, (wAw9 = fun k => if k = i then 1 else 0) ∧ i ≤ j ∧
         ∀ k, i ≤ k → k < j → wProbs9 k < 1 / 2)) :=
  ⟨Or.inr ⟨1, rfl⟩, C9_mocha_hard_onehot 3 wProbs9 wAw9 (Or.inr ⟨1, rfl⟩)⟩

/-! ## More lemmas on the sorting primitives and hypothesis shapes -/

theorem insertDesc_length {α : Type} (f : α → ℚ) (a : α) (l : List α) :
    (insertDesc f a l).length = l.length + 1 := by
  induction l with
  | nil => rfl
  | cons b l ih =>
    simp only [insertDesc]
    split <;> simp [ih]

theorem sortDesc_length {α : Type} (f : α → ℚ) (l : List α) :
    (sortDesc f l).length = l.length := by
  induction l with
  | nil => rfl
  | cons a l ih => simp [sortDesc, insertDesc_length, ih]

theorem mem_insertDesc {α : Type} (f : α → ℚ) (a x : α) (l : List α) :
    x ∈ insertDesc f a l ↔ x = a ∨ x ∈ l := by
  induction l with
  | nil => simp [insertDesc]
  | cons b l ih =>
    simp only [insertDesc]
    split
    · simp
    · simp only [List.mem_cons, ih]
      tauto

theorem mem_sortDesc {α : Type} (f : α → ℚ) (x : α) (l : List α) :
    x ∈ sortDesc f l ↔ x ∈ l := by
  induction l with
  | nil => simp [sortDesc]
  | cons a l ih => simp [sortDesc, mem_insertDesc, ih]

theorem head?_append_of_head? {α : Type} {l : List α} {a : α} (l' : List α)
    (h : l.head? = some a) : (l ++ l').head? = some a := by
  cases l with
  | nil => simp at h
  | cons b t => simpa using h

theorem tail_getLast?_of_one_lt {α : Type} {l : List α} (h : 1 < l.length) :
    l.tail.getLast? = l.getLast? := by
  cases l with
  | nil => simp at h
  | cons a t =>
    cases t with
    | nil => simp at h
    | cons b u => simp

/-- Every child produced by `expandHyps` extends its parent by exactly one
token (the spec's length invariant for hypotheses). -/
theorem expandHyps_shape (M : Model σ ς) (P : DecParams) (elens : Nat)
    (beam : Hyp σ ς) :
    ∀ h ∈ expandHyps M P elens beam, ∃ t, h.hyp = beam.hyp ++ [t] := by
  intro h hm
  simp only [expandHyps, List.mem_filterMap] at hm
  obtain ⟨cd, _, hcd⟩ := hm
  by_cases hc : (cd.token == M.eos && eosRejected M P elens beam) = true
  · rw [if_pos hc] at hcd
    cases hcd
  · rw [if_neg hc] at hcd
    exact ⟨cd.token, by rw [← Option.some_inj.mp hcd]; rfl⟩

theorem stepAll_shape (M : Model σ ς) (P : DecParams) (elens : Nat)
    (hyps : List (Hyp σ ς)) :
    ∀ h ∈ stepAll M P elens hyps,
      ∃ beam ∈ hyps, ∃ t, h.hyp = beam.hyp ++ [t] := by
  intro h hm
  simp only [stepAll, List.mem_flatMap] at hm
  obtain ⟨beam, hb, hmem⟩ := hm
  exact ⟨beam, hb, expandHyps_shape M P elens beam h hmem⟩

theorem pruneLocal_subset (P : DecParams) (l : List (Hyp σ ς)) :
    ∀ h ∈ pruneLocal P l, h ∈ l := by
  intro h hm
  exact (mem_sortDesc _ h l).mp (List.mem_of_mem_take hm)

/-- Hypotheses moved to the finished set by a non-oracle split end in eos
and are longer than the bare sos symbol. -/
theorem splitStep_ends_eos (M : Model σ ς) (P : DecParams) (refs : List Nat)
    (t : Nat) (pruned : List (Hyp σ ς)) (hor : P.oracle = false) :
    ∀ h ∈ (splitStep M P refs t pruned).2,
      h ∈ pruned ∧ 1 < h.hyp.length ∧ h.hyp.getLast? = some M.eos := by
  intro h hm
  simp only [splitStep, hor, Bool.false_eq_true, if_false] at hm
  have hmem := List.mem_of_mem_filter hm
  have hcond := List.of_mem_filter hm
  simp only [endsNow, Bool.and_eq_true, decide_eq_true_eq, beq_iff_eq] at hcond
  refine ⟨hmem, hcond.1, ?_⟩
  have hne : h.hyp ≠ [] := by
    intro he
    rw [he] at hcond
    simp at hcond
  have h2 := hcond.2
  rw [List.getLastD_eq_getLast?] at h2
  cases hl : h.hyp.getLast? with
  | none => exact absurd (List.getLast?_eq_none_iff.mp hl) hne
  | some x =>
    rw [hl, Option.getD_some] at h2
    rw [h2]

/-- Components of a split are drawn from the pruned candidate list. -/
theorem splitStep_subset (M : Model σ ς) (P : DecParams) (refs : List Nat)
    (t : Nat) (pruned : List (Hyp σ ς)) :
    (∀ h ∈ (splitStep M P refs t pruned).1, h ∈ pruned) ∧
    (∀ h ∈ (splitStep M P refs t pruned).2, h ∈ pruned) := by
  unfold splitStep
  split
  · split
    · exact ⟨fun h hm => by simp at hm, fun h hm => hm⟩
    · exact ⟨fun h hm => hm, fun h hm => by simp at hm⟩
  · exact ⟨fun h hm => List.mem_of_mem_filter hm,
      fun h hm => List.mem_of_mem_filter hm⟩

/-- Loop invariant (non-oracle direction): every live hypothesis keeps its
leading sos symbol, and every finished hypothesis additionally is longer
than one token and ends in eos. -/
theorem beamLoop_inv (M : Model σ ς) (P : DecParams) (elens : Nat)
    (refs : List Nat) (hor : P.oracle = false) :
    ∀ (ts : List Nat) (hyps ends : List (Hyp σ ς)),
      (∀ h ∈ hyps, h.hyp.head? = some M.eos) →
      (∀ h ∈ ends, h.hyp.head? = some M.eos ∧ 1 < h.hyp.length ∧
        h.hyp.getLast? = some M.eos) →
      (∀ h ∈ (beamLoop M P elens refs ts hyps ends).1,
        h.hyp.head? = some M.eos) ∧
      (∀ h ∈ (beamLoop M P elens refs ts hyps ends).2.1,
        h.hyp.head? = some M.eos ∧ 1 < h.hyp.length ∧
        h.hyp.getLast? = some M.eos) := by
  intro ts
  induction ts with
  | nil =>
    intro hyps ends hh he
    exact ⟨hh, he⟩
  | cons t ts ih =>
    intro hyps ends hh he
    have hpr : ∀ h ∈ pruneLocal P (stepAll M P elens hyps),
        h.hyp.head? = some M.eos := by
      intro h hm
      obtain ⟨beam, hb, tk, htk⟩ :=
        stepAll_shape M P elens hyps h (pruneLocal_subset P _ h hm)
      rw [htk]
      exact head?_append_of_head? [tk] (hh beam hb)
    have hnew : ∀ h ∈ (splitStep M P refs t
        (pruneLocal P (stepAll M P elens hyps))).2,
        h.hyp.head? = some M.eos ∧ 1 < h.hyp.length ∧
        h.hyp.getLast? = some M.eos := by
      intro h hm
      obtain ⟨hmem, hlen, hlast⟩ :=
        splitStep_ends_eos M P refs t _ hor h hm
      exact ⟨hpr h hmem, hlen, hlast⟩
    have hlive : ∀ h ∈ (splitStep M P refs t
        (pruneLocal P (stepAll M P elens hyps))).1,
        h.hyp.head? = some M.eos := by
      intro h hm
      exact hpr h ((splitStep_subset M P refs t _).1 h hm)
    have hends2 : ∀ h ∈ ends ++ (splitStep M P refs t
        (pruneLocal P (stepAll M P elens hyps))).2,
        h.hyp.head? = some M.eos ∧ 1 < h.hyp.length ∧
        h.hyp.getLast? = some M.eos := by
      intro h hm
      rcases List.mem_append.mp hm with hm | hm
      · exact he h hm
      · exact hnew h hm
    simp only [beamLoop]
    split
    · refine ⟨hh, fun h hm => hends2 h (List.mem_of_mem_take hm)⟩
    · exact ih _ _ hlive hends2

/-- Finalized hypotheses come from the finished set or the live beam. -/
theorem mem_finalizeHyps (P : DecParams) (live ends : List (Hyp σ ς)) :
    ∀ h ∈ finalizeHyps P live ends, h ∈ ends ∨ h ∈ live := by
  intro h hm
  unfold finalizeHyps at hm
  rw [mem_sortDesc] at hm
  split at hm
  · exact Or.inr hm
  · split at hm
    · rcases List.mem_append.mp hm with hm | hm
      · exact Or.inl hm
      · exact Or.inr (List.mem_of_mem_take hm)
    · exact Or.inl hm

/-! ## Claim C2: n-best output shape -/

/-- C2 (amended): provided at least `nbest` hypotheses remain after the
finalize stage (spilling / padding) — the unhandled corner being an
`IndexError` otherwise, see the counterexample — `beam_search` returns,
for the utterance, exactly `nbest` sequences and `nbest` scores; every
returned hypothesis still starts with the sos symbol (which `hyp[1:]`
strips from the output sequence), and, when `exclude_eos` is false, every
returned hypothesis that terminated by emitting eos yields a sequence
ending in eos. -/
theorem C2_amended_nbest_shape (M : Model σ ς) (P : DecParams) (elens : Nat)
    (refs : List Nat) (speaker : Option Nat) (hid : Hidden σ)
    (hor : P.oracle = false)
    (hlen : P.nbest ≤ (decFin M P elens refs speaker hid).length) :
    ∃ out : DecOut, (decodeUtt M P elens refs speaker hid).1 = some out ∧
      out.seqs.length = P.nbest ∧ out.scores.length = P.nbest ∧
      out.eosFlags.length = P.nbest ∧
      out.seqs = ((decFin M P elens refs speaker hid).take P.nbest).map
        (hypSeq M P) ∧
      (∀ h ∈ (decFin M P elens refs speaker hid).take P.nbest,
        h.hyp.head? = some M.eos ∧ hypSeq M P h ⊆ h.hyp.tail) ∧
      (P.excludeEos = false →
        ∀ h ∈ (decFin M P elens refs speaker hid).take P.nbest,
          h ∈ (decLoop M P elens refs speaker hid).2.1 →
          (hypSeq M P h).getLast? = some M.eos) := by
  have hinv := beamLoop_inv M P elens refs hor
    (List.range (ytimeOf P elens refs))
    [initHyp M (initialLmState M P speaker hid)] []
    (by
      intro h hm
      rw [List.mem_singleton] at hm
      rw [hm]
      rfl)
    (by intro h hm; simp at hm)
  have hmem : ∀ h ∈ (decFin M P elens refs speaker hid).take P.nbest,
      h.hyp.head? = some M.eos := by
    intro h hm
    have hm2 := List.mem_of_mem_take hm
    rcases mem_finalizeHyps P _ _ h hm2 with hm3 | hm3
    · exact (hinv.2 h hm3).1
    · exact hinv.1 h hm3
  refine ⟨⟨((decFin M P elens refs speaker hid).take P.nbest).map (hypSeq M P),
      ((decFin M P elens refs speaker hid).take P.nbest).map
        (fun h => h.scoreAttn),
      ((decFin M P elens refs speaker hid).take P.nbest).map
        (fun h => h.hyp.getLastD M.eos == M.eos)⟩,
    ?_, ?_, ?_, ?_, rfl, ?_, ?_⟩
  · simp only [decodeUtt]
    rw [if_pos hlen]
  · simp [List.length_take, min_eq_left hlen]
  · simp [List.length_take, min_eq_left hlen]
  · simp [List.length_take, min_eq_left hlen]
  · intro h hm
    refine ⟨hmem h hm, ?_⟩
    unfold hypSeq
    split
    · exact fun x hx => List.dropLast_subset _ hx
    · exact fun x hx => hx
  · intro hex h hm hend
    have hprop := hinv.2 h hend
    unfold hypSeq
    rw [hex]
    simp only [Bool.false_and, Bool.false_eq_true, if_false]
    rw [tail_getLast?_of_one_lt hprop.2.1]
    exact hprop.2.2

/-- Model for the C2/C5 counterexamples: plain attention decoder, no LM,
no CTC. -/
def cexM2 : Model Unit Unit :=
  { vocab := 3, eos := 1,
    attnLogProb := fun _ i => if i = 0 then -1 else if i = 1 then -2 else -3,
    lm := none, ctc := none }

/-- Valid beam configuration (`nbest = beam_width = 2`) whose one-step
budget and minimum-length filter leave fewer than `nbest` hypotheses. -/
def cexP2 : DecParams :=
  { beamWidth := 2, nbest := 2, excludeEos := false, oracle := false,
    ctcWeight := 0, maxLenRatio := 1/2, minLenRatio := 1, lpWeight := 0,
    lengthNorm := false, lmWeight := 1, eosThreshold := 1,
    lmStateCarryOver := false }

set_option maxHeartbeats 1000000 in
/-- Concrete evaluation: with `cexM2`/`cexP2` the step loop ends with one
live hypothesis and an empty finished set. -/
theorem decLoop_cex2_eval :
    decLoop cexM2 cexP2 1 [] none ⟨0, none⟩ =
      ([⟨[1, 0], -1, -1, 0, 0, none, none⟩], [], 1) := by
  have hctc : cexM2.ctc = (none : Option (CTCScorer Unit)) := rfl
  have hlm : cexM2.lm = none := rfl
  have hA : ∀ ys i, cexM2.attnLogProb ys i =
      (if i = 0 then -1 else if i = 1 then -2 else -3 : ℚ) := fun _ _ => rfl
  have hyt : ytimeOf cexP2 1 [] = 1 := by
    norm_num [ytimeOf, cexP2]
  have ha1 : argmaxAux (coarseScores cexM2 cexP2 ⟨[1], 0, 0, 0, 0, none, none⟩)
      [0, 1, 2] = some 0 := by
    simp only [argmaxAux, coarseScores, attnRow, hA]
    norm_num [cexP2]
  have ha2 : argmaxAux (coarseScores cexM2 cexP2 ⟨[1], 0, 0, 0, 0, none, none⟩)
      [1, 2] = some 1 := by
    simp only [argmaxAux, coarseScores, attnRow, hA]
    norm_num [cexP2]
  have h1 : coarseIds cexM2 cexP2 ⟨[1], 0, 0, 0, 0, none, none⟩ = [0, 1] := by
    show topkList _ (List.range 3) 2 = [0, 1]
    rw [show List.range 3 = [0, 1, 2] from rfl]
    simp only [topkList, ha1, ha2, show [0, 1, 2].erase 0 = [1, 2] from rfl]
  have h2 : candsPostCtc cexM2 cexP2 ⟨[1], 0, 0, 0, 0, none, none⟩ =
      [⟨0, -1, 0, 0, none⟩, ⟨1, -2, 0, 0, none⟩] := by
    rw [candsPostCtc, hctc]
    simp only [candsPreCtc, h1, lmPredict, hlm, Option.map_none, List.map]
    simp only [coarseScores, attnRow, hA]
    norm_num [cexP2]
  have h3 : eosRejected cexM2 cexP2 1 ⟨[1], 0, 0, 0, 0, none, none⟩ = true := by
    simp only [eosRejected, Bool.or_eq_true, decide_eq_true_eq]
    left
    norm_num [cexP2]
  have h4 : expandHyps cexM2 cexP2 1 ⟨[1], 0, 0, 0, 0, none, none⟩ =
      [⟨[1, 0], -1, -1, 0, 0, none, none⟩] := by
    simp only [expandHyps, h2, h3, List.filterMap]
    norm_num [mkChild, attnRow, hA, lmPredict, hlm, cexP2]
    rfl
  have h5 : stepAll cexM2 cexP2 1 [⟨[1], 0, 0, 0, 0, none, none⟩] =
      [⟨[1, 0], -1, -1, 0, 0, none, none⟩] := by
    simp only [stepAll, List.flatMap_cons, List.flatMap_nil, h4, List.append_nil]
  have h8 : beamLoop cexM2 cexP2 1 [] [0] [⟨[1], 0, 0, 0, 0, none, none⟩] [] =
      ([⟨[1, 0], -1, -1, 0, 0, none, none⟩], [], 1) := by
    rw [beamLoop, h5]
    rfl
  rw [decLoop]
  rw [show initialLmState cexM2 cexP2 none (⟨0, none⟩ : Hidden Unit) = none from rfl]
  rw [show initHyp cexM2 (none : Option Unit) = ⟨[1], 0, 0, 0, 0, none, none⟩ from rfl]
  rw [hyt, show List.range 1 = [0] from rfl, h8]

/-- Concrete evaluation: with `cexM2`/`cexP2` the finalize stage holds a
single (spilled) hypothesis, one short of `nbest`. -/
theorem decFin_cex2_eval :
    decFin cexM2 cexP2 1 [] none ⟨0, none⟩ =
      [⟨[1, 0], -1, -1, 0, 0, none, none⟩] := by
  rw [decFin, decLoop_cex2_eval]
  rfl

/-- C2 counterexample: a valid configuration (`1 ≤ nbest ≤ beam_width`) on
which `beam_search` does not return `nbest` sequences: the finalize stage
holds fewer than `nbest` hypotheses and the n-best read raises
`IndexError` (modelled as `none`). -/
theorem C2_counterexample :
    1 ≤ cexP2.nbest ∧ cexP2.nbest ≤ cexP2.beamWidth ∧
    (decodeUtt cexM2 cexP2 1 [] none ⟨0, none⟩).1 = none := by
  refine ⟨by norm_num [cexP2], by norm_num [cexP2], ?_⟩
  rw [decodeUtt, decFin_cex2_eval]
  norm_num [cexP2]

theorem C2_amended_nbest_shape_witness :
    cexP8.oracle = false ∧
    cexP8.nbest ≤ (decFin cexM8 cexP8 1 [] none ⟨0, none⟩).length ∧
    ∃ out : DecOut, (decodeUtt cexM8 cexP8 1 [] none ⟨0, none⟩).1 = some out ∧
      out.seqs.length = cexP8.nbest := by
  have hlen : cexP8.nbest ≤ (decFin cexM8 cexP8 1 [] none ⟨0, none⟩).length := by
    rw [decFin_cex8_eval]
    exact le_refl 1
  obtain ⟨out, h1, h2, _⟩ :=
    C2_amended_nbest_shape cexM8 cexP8 1 [] none ⟨0, none⟩ rfl hlen
  exact ⟨rfl, hlen, out, h1, h2⟩

/-! ## Claim C5: finalize — spill, pad, sort, take n-best -/

/-- C5 (amended): when the step budget is exhausted with an empty finished
set, finalize spills the whole live beam (a total operation — no error is
raised there); a non-empty finished set smaller than `nbest` is padded
with the first `nbest - |finished|` live hypotheses (the source's extra
`nbest > 1` guard is implied); the result is stable-sorted descending by
score; and the top `nbest` are returned provided at least `nbest`
hypotheses remain — otherwise the n-best read fails (see the
counterexample). -/
theorem C5_amended_finalize (M : Model σ ς) (P : DecParams)
    (live ends : List (Hyp σ ς)) (elens : Nat) (refs : List Nat)
    (speaker : Option Nat) (hid : Hidden σ) :
    (finalizeHyps P live [] = sortDesc (fun h => h.score) live) ∧
    (ends ≠ [] → ends.length < P.nbest →
      finalizeHyps P live ends =
        sortDesc (fun h => h.score) (ends ++ live.take (P.nbest - ends.length))) ∧
    (ends ≠ [] → P.nbest ≤ ends.length →
      finalizeHyps P live ends = sortDesc (fun h => h.score) ends) ∧
    (P.nbest ≤ (decFin M P elens refs speaker hid).length →
      (decodeUtt M P elens refs speaker hid).1 =
        some ⟨((decFin M P elens refs speaker hid).take P.nbest).map (hypSeq M P),
              ((decFin M P elens refs speaker hid).take P.nbest).map
                (fun h => h.scoreAttn),
              ((decFin M P elens refs speaker hid).take P.nbest).map
                (fun h => h.hyp.getLastD M.eos == M.eos)⟩) := by
  refine ⟨?_, ?_, ?_, ?_⟩
  · simp [finalizeHyps]
  · intro hne hlt
    have h1 : 1 < P.nbest := by
      have : 1 ≤ ends.length := List.length_pos.mpr hne
      omega
    unfold finalizeHyps
    rw [if_neg (by simpa using hne), if_pos ⟨hlt, h1⟩]
  · intro hne hge
    unfold finalizeHyps
    rw [if_neg (by simpa using hne)]
    rw [if_neg (by
      intro hcon
      exact absurd hge (not_le.mpr hcon.1))]
  · intro hlen
    simp only [decodeUtt]
    rw [if_pos hlen]

theorem C5_amended_finalize_witness :
    ([⟨[1, 1], -2, -1, 0, 0, none, none⟩] : List (Hyp Unit Unit)) ≠ [] ∧
    cexP8.nbest ≤ 1 ∧
    finalizeHyps cexP8 [] [⟨[1, 1], -2, -1, 0, 0, none, none⟩] =
      sortDesc (fun h => h.score)
        ([⟨[1, 1], -2, -1, 0, 0, none, none⟩] : List (Hyp Unit Unit)) :=
  ⟨by simp, le_refl 1,
   (C5_amended_finalize cexM8 cexP8 [] [⟨[1, 1], -2, -1, 0, 0, none, none⟩]
     1 [] none ⟨0, none⟩).2.2.1 (by simp) (le_refl 1)⟩

/-- C5 counterexample: the step budget is exhausted with an empty finished
set and the live beam is spilled without error, but the "top nbest" are
not returned — only one hypothesis remains against `nbest = 2`, and the
n-best read fails (modelled as `none`). -/
theorem C5_counterexample :
    (decLoop cexM2 cexP2 1 [] none ⟨0, none⟩).2.1 = [] ∧
    decFin cexM2 cexP2 1 [] none ⟨0, none⟩ =
      [⟨[1, 0], -1, -1, 0, 0, none, none⟩] ∧
    (decodeUtt cexM2 cexP2 1 [] none ⟨0, none⟩).1 = none :=
  ⟨by rw [decLoop_cex2_eval], decFin_cex2_eval,
   by rw [decodeUtt, decFin_cex2_eval]; norm_num [cexP2]⟩

/-! ## Claim C3: eos rejection tests and the end/live split -/

/-- C3 (amended): an eos candidate is rejected — its child hypothesis is
built for neither the live beam nor the finished set — exactly when the
prefix is shorter than `encoded_length * min_len_ratio` or the attention
log-probability of eos is at most `eos_threshold` times the best
non-eos attention log-probability; with no rejection the whole retained
candidate list is expanded.  Among the candidates retained by the
cross-hypothesis beam-width pruning, those ending in eos (and longer
than the bare sos) move to the finished set and all others extend the
live beam; an eos candidate that passes both tests can still be dropped
by that pruning (see the counterexample). -/
theorem C3_amended_eos_tests (M : Model σ ς) (P : DecParams) (elens : Nat)
    (refs : List Nat) (t : Nat) (beam : Hyp σ ς) (pruned : List (Hyp σ ς))
    (hor : P.oracle = false) :
    (eosRejected M P elens beam = true ↔
      ((beam.hyp.length : ℚ) - 1 < (elens : ℚ) * P.minLenRatio ∨
        attnRow M beam M.eos ≤ P.eosThreshold * maxAttnOther M beam)) ∧
    (eosRejected M P elens beam = true →
      ∀ cd : Cand ς, cd.token = M.eos →
        mkChild M P beam cd ∉ expandHyps M P elens beam) ∧
    (eosRejected M P elens beam = false →
      expandHyps M P elens beam =
        (candsPostCtc M P beam).map (mkChild M P beam)) ∧
    ((splitStep M P refs t pruned).2 = pruned.filter (endsNow M)) ∧
    ((splitStep M P refs t pruned).1 =
      pruned.filter (fun h => !(endsNow M h))) ∧
    (∀ h : Hyp σ ς, endsNow M h = true ↔
      1 < h.hyp.length ∧ h.hyp.getLastD M.eos = M.eos) := by
  refine ⟨?_, ?_, ?_, ?_, ?_, ?_⟩
  · simp [eosRejected]
  · intro hrej cd hcd hmem
    simp only [expandHyps, List.mem_filterMap] at hmem
    obtain ⟨cd2, _, hcd2⟩ := hmem
    by_cases hc : (cd2.token == M.eos && eosRejected M P elens beam) = true
    · rw [if_pos hc] at hcd2
      cases hcd2
    · rw [if_neg hc] at hcd2
      have hhyp : (mkChild M P beam cd2).hyp = (mkChild M P beam cd).hyp := by
        rw [Option.some_inj.mp hcd2]
      have htok : cd2.token = cd.token := by
        have : beam.hyp ++ [cd2.token] = beam.hyp ++ [cd.token] := hhyp
        simpa using this
      rw [hcd] at htok
      exact hc (by simp [htok, hrej])
  · intro hrej
    simp only [expandHyps, hrej, Bool.and_false, Bool.false_eq_true, if_false]
    induction candsPostCtc M P beam with
    | nil => rfl
    | cons cd l ih => simp [List.filterMap_cons, ih]
  · simp [splitStep, hor]
  · simp [splitStep, hor]
  · intro h
    simp [endsNow]

theorem C3_amended_eos_tests_witness :
    cexP2.oracle = false ∧
    (eosRejected cexM2 cexP2 1 ⟨[1], 0, 0, 0, 0, none, none⟩ = true ↔
      ((((⟨[1], 0, 0, 0, 0, none, none⟩ : Hyp Unit Unit).hyp.length : ℚ) - 1 <
          ((1 : Nat) : ℚ) * cexP2.minLenRatio) ∨
        attnRow cexM2 ⟨[1], 0, 0, 0, 0, none, none⟩ cexM2.eos ≤
          cexP2.eosThreshold * maxAttnOther cexM2 ⟨[1], 0, 0, 0, 0, none, none⟩)) :=
  ⟨rfl,
   (C3_amended_eos_tests cexM2 cexP2 1 [] 0 ⟨[1], 0, 0, 0, 0, none, none⟩
     [] rfl).1⟩

/-- Model for the C3 counterexample: prefix-dependent attention scores over
a 3-token vocabulary with eos = 1. -/
def cexM3 : Model Unit Unit :=
  { vocab := 3, eos := 1,
    attnLogProb := fun ys i =>
      if ys = [1] then (if i = 0 then -2 else if i = 1 then -10 else -4)
      else if ys = [1, 0] then (if i = 0 then -2 else if i = 1 then -20 else -3)
      else if ys = [1, 2] then (if i = 0 then -18 else if i = 1 then -1 else -19)
      else 0,
    lm := none, ctc := none }

/-- Parameters for the C3 counterexample: beam width 2, no CTC/LM, no
length filters, eos threshold 1. -/
def cexP3 : DecParams :=
  { beamWidth := 2, nbest := 1, excludeEos := false, oracle := false,
    ctcWeight := 0, maxLenRatio := 2, minLenRatio := 0, lpWeight := 0,
    lengthNorm := false, lmWeight := 1, eosThreshold := 1,
    lmStateCarryOver := false }

set_option maxHeartbeats 2000000 in
/-- Concrete evaluation: the first step of `cexM3`/`cexP3` produces a live
beam of two hypotheses and no finished hypothesis. -/
theorem beamLoop_cex3_step0 :
    beamLoop cexM3 cexP3 1 [] [0] [⟨[1], 0, 0, 0, 0, none, none⟩] [] =
      ([⟨[1, 0], -2, -2, 0, 0, none, none⟩, ⟨[1, 2], -4, -4, 0, 0, none, none⟩],
       [], 1) := by
  have hctc : cexM3.ctc = (none : Option (CTCScorer Unit)) := rfl
  have hlm : cexM3.lm = none := rfl
  have hAr : ∀ i, cexM3.attnLogProb [1] i =
      (if i = 0 then -2 else if i = 1 then -10 else -4 : ℚ) := fun _ => rfl
  have a1 : argmaxAux (coarseScores cexM3 cexP3 ⟨[1], 0, 0, 0, 0, none, none⟩)
      [0, 1, 2] = some 0 := by
    simp only [argmaxAux, coarseScores, attnRow, hAr]
    norm_num [cexP3]
  have a2 : argmaxAux (coarseScores cexM3 cexP3 ⟨[1], 0, 0, 0, 0, none, none⟩)
      [1, 2] = some 2 := by
    simp only [argmaxAux, coarseScores, attnRow, hAr]
    norm_num [cexP3]
  have h1 : coarseIds cexM3 cexP3 ⟨[1], 0, 0, 0, 0, none, none⟩ = [0, 2] := by
    show topkList _ (List.range 3) 2 = [0, 2]
    rw [show List.range 3 = [0, 1, 2] from rfl]
    simp only [topkList, a1, a2, show [0, 1, 2].erase 0 = [1, 2] from rfl]
  have h2 : candsPostCtc cexM3 cexP3 ⟨[1], 0, 0, 0, 0, none, none⟩ =
      [⟨0, -2, 0, 0, none⟩, ⟨2, -4, 0, 0, none⟩] := by
    rw [candsPostCtc, hctc]
    simp only [candsPreCtc, h1, lmPredict, hlm, Option.map_none, List.map]
    simp only [coarseScores, attnRow, hAr]
    norm_num [cexP3]
  have h3 : expandHyps cexM3 cexP3 1 ⟨[1], 0, 0, 0, 0, none, none⟩ =
      [⟨[1, 0], -2, -2, 0, 0, none, none⟩,
       ⟨[1, 2], -4, -4, 0, 0, none, none⟩] := by
    simp only [expandHyps, h2, List.filterMap]
    norm_num [mkChild, attnRow, hAr, lmPredict, hlm, cexP3]
    rfl
  have h4 : stepAll cexM3 cexP3 1 [⟨[1], 0, 0, 0, 0, none, none⟩] =
      [⟨[1, 0], -2, -2, 0, 0, none, none⟩,
       ⟨[1, 2], -4, -4, 0, 0, none, none⟩] := by
    simp only [stepAll, List.flatMap_cons, List.flatMap_nil, h3, List.append_nil]
  have h5 : pruneLocal cexP3
      ([⟨[1, 0], -2, -2, 0, 0, none, none⟩,
        ⟨[1, 2], -4, -4, 0, 0, none, none⟩] : List (Hyp Unit Unit)) =
      [⟨[1, 0], -2, -2, 0, 0, none, none⟩,
       ⟨[1, 2], -4, -4, 0, 0, none, none⟩] := by
    unfold pruneLocal
    rw [show (sortDesc (fun h => h.score)
      ([⟨[1, 0], -2, -2, 0, 0, none, none⟩,
        ⟨[1, 2], -4, -4, 0, 0, none, none⟩] : List (Hyp Unit Unit))) =
      insertDesc (fun h => h.score) ⟨[1, 0], -2, -2, 0, 0, none, none⟩
        [⟨[1, 2], -4, -4, 0, 0, none, none⟩] from rfl]
    rw [insertDesc]
    norm_num
    exact le_refl 2
  rw [beamLoop, h4, h5]
  rfl

set_option maxHeartbeats 2000000 in
/-- Concrete evaluation: the second-step candidate pool of `cexM3`/`cexP3`
holds the eos child of the second hypothesis, which passes both eos
tests, but the beam-width pruning keeps only the two children of the
first hypothesis. -/
theorem cex3_step1_eval :
    stepAll cexM3 cexP3 1
        [⟨[1, 0], -2, -2, 0, 0, none, none⟩,
         ⟨[1, 2], -4, -4, 0, 0, none, none⟩] =
      [⟨[1, 0, 0], -4, -4, 0, 0, none, none⟩,
       ⟨[1, 0, 2], -5, -5, 0, 0, none, none⟩,
       ⟨[1, 2, 1], -5, -5, 0, 0, none, none⟩,
       ⟨[1, 2, 0], -22, -22, 0, 0, none, none⟩] ∧
    eosRejected cexM3 cexP3 1 ⟨[1, 2], -4, -4, 0, 0, none, none⟩ = false ∧
    pruneLocal cexP3
        ([⟨[1, 0, 0], -4, -4, 0, 0, none, none⟩,
          ⟨[1, 0, 2], -5, -5, 0, 0, none, none⟩,
          ⟨[1, 2, 1], -5, -5, 0, 0, none, none⟩,
          ⟨[1, 2, 0], -22, -22, 0, 0, none, none⟩] : List (Hyp Unit Unit)) =
      [⟨[1, 0, 0], -4, -4, 0, 0, none, none⟩,
       ⟨[1, 0, 2], -5, -5, 0, 0, none, none⟩] := by
  have hctc : cexM3.ctc = (none : Option (CTCScorer Unit)) := rfl
  have hlm : cexM3.lm = none := rfl
  have hAa : ∀ i, cexM3.attnLogProb [1, 0] i =
      (if i = 0 then -2 else if i = 1 then -20 else -3 : ℚ) := fun _ => rfl
  have hAb : ∀ i, cexM3.attnLogProb [1, 2] i =
      (if i = 0 then -18 else if i = 1 then -1 else -19 : ℚ) := fun _ => rfl
  have aA1 : argmaxAux (coarseScores cexM3 cexP3
      ⟨[1, 0], -2, -2, 0, 0, none, none⟩) [0, 1, 2] = some 0 := by
    simp only [argmaxAux, coarseScores, attnRow, hAa]
    norm_num [cexP3]
  have aA2 : argmaxAux (coarseScores cexM3 cexP3
      ⟨[1, 0], -2, -2, 0, 0, none, none⟩) [1, 2] = some 2 := by
    simp only [argmaxAux, coarseScores, attnRow, hAa]
    norm_num [cexP3]
  have hA1 : coarseIds cexM3 cexP3 ⟨[1, 0], -2, -2, 0, 0, none, none⟩ =
      [0, 2] := by
    show topkList _ (List.range 3) 2 = [0, 2]
    rw [show List.range 3 = [0, 1, 2] from rfl]
    simp only [topkList, aA1, aA2, show [0, 1, 2].erase 0 = [1, 2] from rfl]
  have hA2 : candsPostCtc cexM3 cexP3 ⟨[1, 0], -2, -2, 0, 0, none, none⟩ =
      [⟨0, -4, 0, 0, none⟩, ⟨2, -5, 0, 0, none⟩] := by
    rw [candsPostCtc, hctc]
    simp only [candsPreCtc, hA1, lmPredict, hlm, Option.map_none, List.map]
    simp only [coarseScores, attnRow, hAa]
    norm_num [cexP3]
  have hA3 : expandHyps cexM3 cexP3 1 ⟨[1, 0], -2, -2, 0, 0, none, none⟩ =
      [⟨[1, 0, 0], -4, -4, 0, 0, none, none⟩,
       ⟨[1, 0, 2], -5, -5, 0, 0, none, none⟩] := by
    simp only [expandHyps, hA2, List.filterMap]
    norm_num [mkChild, attnRow, hAa, lmPredict, hlm, cexP3]
    rfl
  have aB1 : argmaxAux (coarseScores cexM3 cexP3
      ⟨[1, 2], -4, -4, 0, 0, none, none⟩) [0, 1, 2] = some 1 := by
    simp only [argmaxAux, coarseScores, attnRow, hAb]
    norm_num [cexP3]
  have aB2 : argmaxAux (coarseScores cexM3 cexP3
      ⟨[1, 2], -4, -4, 0, 0, none, none⟩) [0, 2] = some 0 := by
    simp only [argmaxAux, coarseScores, attnRow, hAb]
    norm_num [cexP3]
  have hB1 : coarseIds cexM3 cexP3 ⟨[1, 2], -4, -4, 0, 0, none, none⟩ =
      [1, 0] := by
    show topkList _ (List.range 3) 2 = [1, 0]
    rw [show List.range 3 = [0, 1, 2] from rfl]
    simp only [topkList, aB1, aB2, show [0, 1, 2].erase 1 = [0, 2] from rfl]
  have hB2 : candsPostCtc cexM3 cexP3 ⟨[1, 2], -4, -4, 0, 0, none, none⟩ =
      [⟨1, -5, 0, 0, none⟩, ⟨0, -22, 0, 0, none⟩] := by
    rw [candsPostCtc, hctc]
    simp only [candsPreCtc, hB1, lmPredict, hlm, Option.map_none, List.map]
    simp only [coarseScores, attnRow, hAb]
    norm_num [cexP3]
  have hmaxB : maxAttnOther cexM3 ⟨[1, 2], -4, -4, 0, 0, none, none⟩ = -18 := by
    simp only [maxAttnOther, show cexM3.vocab = 3 from rfl,
      show cexM3.eos = 1 from rfl]
    rw [show (List.range 3).filter (fun i => i != 1) = [0, 2] from rfl]
    simp only [List.map, attnRow, hAb, listMax, List.foldl]
    norm_num
  have hB3 : eosRejected cexM3 cexP3 1 ⟨[1, 2], -4, -4, 0, 0, none, none⟩ =
      false := by
    simp only [eosRejected, hmaxB, attnRow, hAb, show cexM3.eos = 1 from rfl]
    norm_num [cexP3]
  have hB4 : expandHyps cexM3 cexP3 1 ⟨[1, 2], -4, -4, 0, 0, none, none⟩ =
      [⟨[1, 2, 1], -5, -5, 0, 0, none, none⟩,
       ⟨[1, 2, 0], -22, -22, 0, 0, none, none⟩] := by
    simp only [expandHyps, hB2, hB3, List.filterMap, Bool.and_false]
    norm_num [mkChild, attnRow, hAb, lmPredict, hlm, cexP3]
  refine ⟨?_, hB3, ?_⟩
  · simp only [stepAll, List.flatMap_cons, List.flatMap_nil, hA3, hB4,
      List.append_nil]
    rfl
  · unfold pruneLocal
    rw [show (sortDesc (fun h => h.score)
      ([⟨[1, 0, 0], -4, -4, 0, 0, none, none⟩,
        ⟨[1, 0, 2], -5, -5, 0, 0, none, none⟩,
        ⟨[1, 2, 1], -5, -5, 0, 0, none, none⟩,
        ⟨[1, 2, 0], -22, -22, 0, 0, none, none⟩] : List (Hyp Unit Unit))) =
      insertDesc (fun h => h.score) ⟨[1, 0, 0], -4, -4, 0, 0, none, none⟩
        (insertDesc (fun h => h.score) ⟨[1, 0, 2], -5, -5, 0, 0, none, none⟩
          (insertDesc (fun h => h.score) ⟨[1, 2, 1], -5, -5, 0, 0, none, none⟩
            (insertDesc (fun h => h.score)
              ⟨[1, 2, 0], -22, -22, 0, 0, none, none⟩ []))) from rfl]
    rw [insertDesc, insertDesc]
    rw [if_pos (by norm_num : ((⟨[1, 2, 0], -22, -22, 0, 0, none, none⟩ :
      Hyp Unit Unit).score ≤ (⟨[1, 2, 1], -5, -5, 0, 0, none, none⟩ :
      Hyp Unit Unit).score))]
    rw [insertDesc]
    rw [if_pos (by norm_num : ((⟨[1, 2, 1], -5, -5, 0, 0, none, none⟩ :
      Hyp Unit Unit).score ≤ (⟨[1, 0, 2], -5, -5, 0, 0, none, none⟩ :
      Hyp Unit Unit).score))]
    rw [insertDesc]
    rw [if_pos (by norm_num : ((⟨[1, 0, 2], -5, -5, 0, 0, none, none⟩ :
      Hyp Unit Unit).score ≤ (⟨[1, 0, 0], -4, -4, 0, 0, none, none⟩ :
      Hyp Unit Unit).score))]
    rfl

set_option maxHeartbeats 1000000 in
/-- C3 counterexample: at the (reachable) two-hypothesis beam of
`cexM3`/`cexP3`, the eos candidate of the second hypothesis passes both
rejection tests and is among the step's expanded candidates, yet it
enters neither the live beam nor the finished set — the cross-hypothesis
beam-width pruning drops it. -/
theorem C3_counterexample :
    (beamLoop cexM3 cexP3 1 [] [0] [initHyp cexM3 none] []).1 =
      [⟨[1, 0], -2, -2, 0, 0, none, none⟩,
       ⟨[1, 2], -4, -4, 0, 0, none, none⟩] ∧
    eosRejected cexM3 cexP3 1 ⟨[1, 2], -4, -4, 0, 0, none, none⟩ = false ∧
    (⟨[1, 2, 1], -5, -5, 0, 0, none, none⟩ : Hyp Unit Unit).hyp =
      (⟨[1, 2], -4, -4, 0, 0, none, none⟩ : Hyp Unit Unit).hyp ++ [cexM3.eos] ∧
    (⟨[1, 2, 1], -5, -5, 0, 0, none, none⟩ : Hyp Unit Unit) ∈
      stepAll cexM3 cexP3 1
        [⟨[1, 0], -2, -2, 0, 0, none, none⟩,
         ⟨[1, 2], -4, -4, 0, 0, none, none⟩] ∧
    (⟨[1, 2, 1], -5, -5, 0, 0, none, none⟩ : Hyp Unit Unit) ∉
      (splitStep cexM3 cexP3 [] 1 (pruneLocal cexP3 (stepAll cexM3 cexP3 1
        [⟨[1, 0], -2, -2, 0, 0, none, none⟩,
         ⟨[1, 2], -4, -4, 0, 0, none, none⟩]))).1 ∧
    (⟨[1, 2, 1], -5, -5, 0, 0, none, none⟩ : Hyp Unit Unit) ∉
      (splitStep cexM3 cexP3 [] 1 (pruneLocal cexP3 (stepAll cexM3 cexP3 1
        [⟨[1, 0], -2, -2, 0, 0, none, none⟩,
         ⟨[1, 2], -4, -4, 0, 0, none, none⟩]))).2 := by
  have hsplit : splitStep cexM3 cexP3 [] 1
      ([⟨[1, 0, 0], -4, -4, 0, 0, none, none⟩,
        ⟨[1, 0, 2], -5, -5, 0, 0, none, none⟩] : List (Hyp Unit Unit)) =
      ([⟨[1, 0, 0], -4, -4, 0, 0, none, none⟩,
        ⟨[1, 0, 2], -5, -5, 0, 0, none, none⟩], []) := by
    simp only [splitStep, show cexP3.oracle = false from rfl,
      Bool.false_eq_true, if_false]
    simp [endsNow, show cexM3.eos = 1 from rfl]
  refine ⟨?_, cex3_step1_eval.2.1, rfl, ?_, ?_, ?_⟩
  · rw [show initHyp cexM3 (none : Option Unit) =
      ⟨[1], 0, 0, 0, 0, none, none⟩ from rfl, beamLoop_cex3_step0]
  · rw [cex3_step1_eval.1]
    simp
  · rw [cex3_step1_eval.1, cex3_step1_eval.2.2, hsplit]
    simp [Hyp.mk.injEq]
  · rw [cex3_step1_eval.1, cex3_step1_eval.2.2, hsplit]
    simp

/-! ## Claim C6: beam width 1 versus greedy decoding -/

theorem argmaxAux_isSome {s : Nat → ℚ} {l : List Nat} (h : l ≠ []) :
    ∃ j, argmaxAux s l = some j := by
  cases l with
  | nil => exact absurd rfl h
  | cons i l =>
    cases hal : argmaxAux s l with
    | none => exact ⟨i, by simp [argmaxAux, hal]⟩
    | some j =>
      by_cases hc : s i < s j
      · exact ⟨j, by simp [argmaxAux, hal, hc]⟩
      · exact ⟨i, by simp [argmaxAux, hal, hc]⟩

theorem getLastD_concat {α : Type} (l : List α) (a d : α) :
    (l ++ [a]).getLastD d = a := by
  rw [List.getLastD_eq_getLast?, List.getLast?_concat, Option.getD_some]

/-- Under the C6 configuration (beam width 1, zero CTC weight, no CTC, no
LM, inactive minimum-length filter, never-firing eos threshold), one
hypothesis expands to exactly one child, carrying the greedy-argmax
token. -/
theorem expandHyps_beam1 (M : Model σ ς) (P : DecParams) (elens : Nat)
    (beam : Hyp σ ς)
    (hw : P.beamWidth = 1) (hcw : P.ctcWeight = 0)
    (hlm : M.lm = none) (hctc : M.ctc = none)
    (hminlen : P.minLenRatio ≤ 0)
    (hthr : ∀ ys : List Nat, ¬ (M.attnLogProb ys M.eos ≤
      P.eosThreshold * listMax (((List.range M.vocab).filter
        (fun i => i != M.eos)).map (M.attnLogProb ys))))
    (hvocab : 0 < M.vocab) (hne : beam.hyp ≠ []) :
    ∃ j, argmaxAux (M.attnLogProb beam.hyp) (List.range M.vocab) = some j ∧
      ∃ cd : Cand ς, cd.token = j ∧
        expandHyps M P elens beam = [mkChild M P beam cd] := by
  obtain ⟨j, hj⟩ := argmaxAux_isSome
    (s := M.attnLogProb beam.hyp)
    (l := List.range M.vocab)
    (by simpa using Nat.pos_iff_ne_zero.mp hvocab)
  have hcoarse : coarseScores M P beam = fun i =>
      beam.scoreAttn + M.attnLogProb beam.hyp i := by
    funext i
    unfold coarseScores attnRow
    rw [hcw]
    ring
  have hids : coarseIds M P beam = [j] := by
    unfold coarseIds
    rw [hw, hcoarse]
    simp only [topkList, argmaxAux_shift, hj]
  have hrej : eosRejected M P elens beam = false := by
    unfold eosRejected
    rw [Bool.or_eq_false_iff]
    constructor
    · rw [decide_eq_false_iff_not, not_lt]
      have h1 : (elens : ℚ) * P.minLenRatio ≤ 0 :=
        mul_nonpos_of_nonneg_of_nonpos (Nat.cast_nonneg elens) hminlen
      have h2 : (0 : ℚ) ≤ (beam.hyp.length : ℚ) - 1 := by
        have h3 : (1 : ℚ) ≤ (beam.hyp.length : ℚ) := by
          exact_mod_cast List.length_pos.mpr hne
        linarith
      linarith
    · rw [decide_eq_false_iff_not]
      exact hthr beam.hyp
  have hlmp : lmPredict M beam = none := by
    rw [lmPredict, hlm]
    rfl
  refine ⟨j, hj,
    ⟨j, coarseScores M P beam j + 0 +
      (if 0 < P.lpWeight then
        ((beam.hyp.tail.length : ℚ) + 1) * P.lpWeight else 0), 0, 0, none⟩,
    rfl, ?_⟩
  have hpost : candsPostCtc M P beam =
      [⟨j, coarseScores M P beam j + 0 +
        (if 0 < P.lpWeight then
          ((beam.hyp.tail.length : ℚ) + 1) * P.lpWeight else 0), 0, 0, none⟩] := by
    rw [candsPostCtc, hctc]
    unfold candsPreCtc
    rw [hids]
    simp only [List.map, hlmp, hlm]
  unfold expandHyps
  rw [hpost]
  simp only [List.filterMap_cons, List.filterMap_nil, hrej, Bool.and_false,
    Bool.false_eq_true, if_false]

/-- Under the C6 configuration, the beam-search loop from a singleton beam
tracks greedy decoding: it ends with exactly one hypothesis — finished
if greedy emitted eos, live otherwise — whose token list is the start
prefix extended by the greedy trace. -/
theorem beamLoop_beam1_sim (M : Model σ ς) (P : DecParams) (elens : Nat)
    (refs : List Nat)
    (hor : P.oracle = false) (hw : P.beamWidth = 1) (hcw : P.ctcWeight = 0)
    (hlm : M.lm = none) (hctc : M.ctc = none) (hminlen : P.minLenRatio ≤ 0)
    (hthr : ∀ ys : List Nat, ¬ (M.attnLogProb ys M.eos ≤
      P.eosThreshold * listMax (((List.range M.vocab).filter
        (fun i => i != M.eos)).map (M.attnLogProb ys))))
    (hvocab : 0 < M.vocab) :
    ∀ (ts : List Nat) (beam : Hyp σ ς), beam.hyp ≠ [] →
      ∃ h' : Hyp σ ς, h'.hyp = beam.hyp ++ greedyGo M beam.hyp ts.length ∧
        (((beamLoop M P elens refs ts [beam] []).2.1 = [h']) ∨
         ((beamLoop M P elens refs ts [beam] []).2.1 = [] ∧
          (beamLoop M P elens refs ts [beam] []).1 = [h'])) := by
  intro ts
  induction ts with
  | nil =>
    intro beam hne
    exact ⟨beam, by simp [greedyGo, beamLoop], Or.inr ⟨rfl, rfl⟩⟩
  | cons t ts ih =>
    intro beam hne
    obtain ⟨j, hj, cd, hcdtok, hexp⟩ :=
      expandHyps_beam1 M P elens beam hw hcw hlm hctc hminlen hthr hvocab hne
    have hstep : stepAll M P elens [beam] = [mkChild M P beam cd] := by
      simp only [stepAll, List.flatMap_cons, List.flatMap_nil, hexp,
        List.append_nil]
    have hprune : pruneLocal P [mkChild M P beam cd] =
        [mkChild M P beam cd] := by
      unfold pruneLocal
      rw [hw]
      rfl
    have hchildhyp : (mkChild M P beam cd).hyp = beam.hyp ++ [j] := by
      rw [← hcdtok]
      rfl
    have hchildne : (mkChild M P beam cd).hyp ≠ [] := by
      rw [hchildhyp]
      simp
    have hgl : (mkChild M P beam cd).hyp.getLastD M.eos = j := by
      rw [hchildhyp]
      exact getLastD_concat _ _ _
    have hlen1 : 1 < (mkChild M P beam cd).hyp.length := by
      rw [hchildhyp]
      have := List.length_pos.mpr hne
      simp only [List.length_append, List.length_cons, List.length_nil]
      omega
    have hgy : (argmaxAux (M.attnLogProb beam.hyp) (List.range M.vocab)).getD 0
        = j := by
      rw [hj]
      rfl
    by_cases hy : j = M.eos
    · have hends : endsNow M (mkChild M P beam cd) = true := by
        unfold endsNow
        rw [hgl, hy]
        simp [hlen1]
      have hsplit : splitStep M P refs t [mkChild M P beam cd] =
          ([], [mkChild M P beam cd]) := by
        simp only [splitStep, hor, Bool.false_eq_true, if_false]
        simp [hends]
      refine ⟨mkChild M P beam cd, ?_, Or.inl ?_⟩
      · rw [hchildhyp]
        simp only [List.length_cons, greedyGo, hgy, hy]
        simp
      · simp only [beamLoop, hstep, hprune, hsplit, List.nil_append]
        rw [hw]
        simp
    · have hends : endsNow M (mkChild M P beam cd) = false := by
        unfold endsNow
        rw [hgl]
        simp [hy]
      have hsplit : splitStep M P refs t [mkChild M P beam cd] =
          ([mkChild M P beam cd], []) := by
        simp only [splitStep, hor, Bool.false_eq_true, if_false]
        simp [hends]
      obtain ⟨h2, hh2, hcase⟩ := ih (mkChild M P beam cd) hchildne
      refine ⟨h2, ?_, ?_⟩
      · rw [hh2, hchildhyp]
        simp only [List.length_cons, greedyGo, hgy]
        rw [if_neg (by simpa using hy)]
        rw [List.append_assoc]
        rfl
      · simp only [beamLoop, hstep, hprune, hsplit, List.append_nil]
        rw [if_neg (by rw [hw]; simp)]
        rcases hcase with hcase | ⟨hc1, hc2⟩
        · exact Or.inl hcase
        · exact Or.inr ⟨hc1, hc2⟩

/-- C6 (amended): with beam width 1, CTC weight 0, no CTC scorer, no LM,
and additionally — as the counterexample shows is necessary — a
minimum-length ratio that never filters and an eos threshold that never
fires, non-oracle `beam_search` returns exactly the greedy decoding
output as its top (and only) hypothesis. -/
theorem C6_amended_greedy_equiv (M : Model σ ς) (P : DecParams) (elens : Nat)
    (refs : List Nat) (speaker : Option Nat) (hid : Hidden σ)
    (hor : P.oracle = false) (hw : P.beamWidth = 1) (hn : P.nbest = 1)
    (hcw : P.ctcWeight = 0) (hlm : M.lm = none) (hctc : M.ctc = none)
    (hminlen : P.minLenRatio ≤ 0)
    (hthr : ∀ ys : List Nat, ¬ (M.attnLogProb ys M.eos ≤
      P.eosThreshold * listMax (((List.range M.vocab).filter
        (fun i => i != M.eos)).map (M.attnLogProb ys))))
    (hvocab : 0 < M.vocab) (hex : P.excludeEos = false) :
    ∃ out : DecOut, (decodeUtt M P elens refs speaker hid).1 = some out ∧
      out.seqs = [greedyDec M P.maxLenRatio elens] := by
  have hroot : (initHyp M (initialLmState M P speaker hid)).hyp = [M.eos] := rfl
  obtain ⟨h2, hh2, hcase⟩ := beamLoop_beam1_sim M P elens refs
    hor hw hcw hlm hctc hminlen hthr hvocab
    (List.range (ytimeOf P elens refs))
    (initHyp M (initialLmState M P speaker hid))
    (by rw [hroot]; simp)
  have hg : greedyGo M [M.eos]
      (List.range (ytimeOf P elens refs)).length =
      greedyDec M P.maxLenRatio elens := by
    rw [List.length_range]
    unfold ytimeOf greedyDec
    rw [if_neg (by rw [hor]; simp)]
  have hfin : decFin M P elens refs speaker hid = [h2] := by
    unfold decFin decLoop
    rcases hcase with hcase | ⟨hends, hlive⟩
    · rw [hcase]
      unfold finalizeHyps
      rw [if_neg (by simp)]
      rw [if_neg (by rw [hn]; simp)]
      rfl
    · rw [hends, hlive]
      unfold finalizeHyps
      rw [if_pos (by simp)]
      rfl
  have hdec : (decodeUtt M P elens refs speaker hid).1 =
      some ⟨[hypSeq M P h2], [h2.scoreAttn],
        [h2.hyp.getLastD M.eos == M.eos]⟩ := by
    simp only [decodeUtt]
    rw [hfin]
    simp only [hn]
    rw [if_pos (by simp)]
    rfl
  have hseq : hypSeq M P h2 = greedyDec M P.maxLenRatio elens := by
    unfold hypSeq
    rw [hex]
    simp only [Bool.false_and, Bool.false_eq_true, if_false]
    rw [hh2, hroot, hg]
    rfl
  exact ⟨_, hdec, by rw [hseq]⟩

/-- Parameters satisfying the amended C6 side conditions (eos threshold 4
never fires against the scores of `cexM8`). -/
def wP6 : DecParams :=
  { beamWidth := 1, nbest := 1, excludeEos := false, oracle := false,
    ctcWeight := 0, maxLenRatio := 1, minLenRatio := 0, lpWeight := 0,
    lengthNorm := false, lmWeight := 1, eosThreshold := 4,
    lmStateCarryOver := false }

theorem C6_amended_greedy_equiv_witness :
    wP6.beamWidth = 1 ∧ wP6.ctcWeight = 0 ∧ cexM8.lm = none ∧
    ∃ out : DecOut, (decodeUtt cexM8 wP6 1 [] none ⟨0, none⟩).1 = some out ∧
      out.seqs = [greedyDec cexM8 wP6.maxLenRatio 1] := by
  refine ⟨rfl, rfl, rfl, ?_⟩
  refine C6_amended_greedy_equiv cexM8 wP6 1 [] none ⟨0, none⟩
    rfl rfl rfl rfl rfl rfl (by norm_num [wP6]) ?_ (by norm_num [cexM8]) rfl
  intro ys
  rw [show (List.range cexM8.vocab).filter (fun i => i != cexM8.eos) =
    [0, 2] from rfl]
  rw [show cexM8.attnLogProb ys cexM8.eos = (-1 : ℚ) from rfl]
  rw [show (List.map (cexM8.attnLogProb ys) [0, 2]) = [-2, -2] from rfl]
  norm_num [listMax, wP6]

/-- Model for the C6 counterexample: the decoder immediately favours eos. -/
def cexM6 : Model Unit Unit :=
  { vocab := 3, eos := 1,
    attnLogProb := fun _ i => if i = 0 then -5 else if i = 1 then -1 else -6,
    lm := none, ctc := none }

/-- C6 counterexample configuration: beam width 1, CTC weight 0, no LM —
exactly the claim's premises — but `min_len_ratio = 1`. -/
def cexP6 : DecParams :=
  { beamWidth := 1, nbest := 1, excludeEos := false, oracle := false,
    ctcWeight := 0, maxLenRatio := 1, minLenRatio := 1, lpWeight := 0,
    lengthNorm := false, lmWeight := 1, eosThreshold := 1,
    lmStateCarryOver := false }

set_option maxHeartbeats 1000000 in
/-- C6 counterexample: under the claim's premises (beam width 1, CTC
weight 0, no LM), greedy decoding returns `[eos]`, while `beam_search`
length-filters its only (eos) candidate at every step, the beam dies,
and no hypothesis at all is returned — so the top beam hypothesis does
not equal the greedy output. -/
theorem C6_counterexample :
    cexP6.beamWidth = 1 ∧ cexP6.ctcWeight = 0 ∧ cexM6.lm = none ∧
    greedyDec cexM6 cexP6.maxLenRatio 1 = [1] ∧
    (decodeUtt cexM6 cexP6 1 [] none ⟨0, none⟩).1 = none := by
  have ha1 : argmaxAux (cexM6.attnLogProb [1]) [0, 1, 2] = some 1 := by
    rw [show cexM6.attnLogProb [1] = (fun i =>
      if i = 0 then -5 else if i = 1 then -1 else -6 : Nat → ℚ) from rfl]
    simp only [argmaxAux]
    norm_num
  refine ⟨rfl, rfl, rfl, ?_, ?_⟩
  · unfold greedyDec
    have hfuel : ((Int.floor (((1 : Nat) : ℚ) * cexP6.maxLenRatio) + 1).toNat) = 2 := by
      norm_num [cexP6]
      decide
    rw [hfuel]
    rw [show [cexM6.eos] = [1] from rfl]
    simp only [greedyGo, show List.range cexM6.vocab = [0, 1, 2] from rfl, ha1]
    rfl
  · have hcands : candsPostCtc cexM6 cexP6 ⟨[1], 0, 0, 0, 0, none, none⟩ =
        [⟨1, -1, 0, 0, none⟩] := by
      rw [candsPostCtc, show cexM6.ctc = (none : Option (CTCScorer Unit)) from rfl]
      unfold candsPreCtc
      rw [show coarseIds cexM6 cexP6 ⟨[1], 0, 0, 0, 0, none, none⟩ = [1] by
        show topkList _ (List.range 3) 1 = [1]
        rw [show List.range 3 = [0, 1, 2] from rfl]
        simp only [topkList]
        rw [show argmaxAux (coarseScores cexM6 cexP6
          ⟨[1], 0, 0, 0, 0, none, none⟩) [0, 1, 2] = some 1 by
          simp only [argmaxAux, coarseScores, attnRow,
            show ∀ i, cexM6.attnLogProb [1] i =
              (if i = 0 then -5 else if i = 1 then -1 else -6 : ℚ) from
              fun _ => rfl]
          norm_num [cexP6]]]
      simp only [List.map, lmPredict, show cexM6.lm = none from rfl,
        Option.map_none]
      simp only [coarseScores, attnRow,
        show ∀ i, cexM6.attnLogProb [1] i =
          (if i = 0 then -5 else if i = 1 then -1 else -6 : ℚ) from fun _ => rfl]
      norm_num [cexP6]
    have hrej : eosRejected cexM6 cexP6 1 ⟨[1], 0, 0, 0, 0, none, none⟩ =
        true := by
      simp only [eosRejected, Bool.or_eq_true, decide_eq_true_eq]
      left
      norm_num [cexP6]
    have hexp : expandHyps cexM6 cexP6 1 ⟨[1], 0, 0, 0, 0, none, none⟩ = [] := by
      simp only [expandHyps, hcands, hrej, List.filterMap_cons,
        List.filterMap_nil]
      rfl
    have hstep : stepAll cexM6 cexP6 1 [⟨[1], 0, 0, 0, 0, none, none⟩] = [] := by
      simp only [stepAll, List.flatMap_cons, List.flatMap_nil, hexp,
        List.append_nil]
    have hloop : beamLoop cexM6 cexP6 1 [] [0, 1]
        [⟨[1], 0, 0, 0, 0, none, none⟩] [] = ([], [], 2) := by
      rw [beamLoop, hstep]
      rfl
    show (decodeUtt cexM6 cexP6 1 [] none ⟨0, none⟩).1 = none
    rw [decodeUtt, decFin, decLoop]
    rw [show initialLmState cexM6 cexP6 none (⟨0, none⟩ : Hidden Unit) = none
      from rfl]
    rw [show initHyp cexM6 (none : Option Unit) =
      ⟨[1], 0, 0, 0, 0, none, none⟩ from rfl]
    rw [show ytimeOf cexP6 1 [] = 2 by norm_num [ytimeOf, cexP6]; decide]
    rw [show List.range 2 = [0, 1] from rfl, hloop]
    rfl
